import Mathlib

set_option autoImplicit false
set_option maxRecDepth 8000
set_option linter.unusedVariables false

/-!
Verification of the REMIRA backend (photo-to-song pipeline).

Python strings are modelled as `List Char` (one element per code point,
matching Python's `len`/slicing semantics).  Machine floats are modelled
as exact rationals.  Fallible calls return `Except`/`Option`.  External
collaborators (the LLM HTTP endpoint, the captioning model, the audio
models, file loading) are modelled as explicit environment parameters;
everything else is translated from the source of
`backend/workers/*.py` and `backend/api/*.py`.
-/

abbrev PyStr := List Char

def strL (s : String) : PyStr := s.toList

/-- Python whitespace (the default split/strip set: space, tab, LF, CR, VT, FF). -/
def pyWs (c : Char) : Bool :=
  c.toNat = 32 || c.toNat = 9 || c.toNat = 10 || c.toNat = 13 || c.toNat = 11 || c.toNat = 12

/-- ASCII model of Python `str.isalpha` (the gate first rejects any
non-ASCII character, so only the ASCII range can matter for its result). -/
def pyIsAlpha (c : Char) : Bool :=
  (65 ≤ c.toNat && c.toNat ≤ 90) || (97 ≤ c.toNat && c.toNat ≤ 122)

/-- Characters accepted by the regexp class complementary to
`[^\x09\x0A\x0D\x20-\x7E]` of `summary_worker.py` / `lyrics_worker.py`. -/
def allowedAscii (c : Char) : Bool :=
  c.toNat = 9 || c.toNat = 10 || c.toNat = 13 || (32 ≤ c.toNat && c.toNat ≤ 126)

/-- Word counter for Python `len(text.split())`: counts maximal runs of
non-whitespace characters.  The boolean argument records whether the scan
is currently inside a word. -/
def wcGo : PyStr → Bool → Nat
  | [], _ => 0
  | c :: cs, inw =>
    if pyWs c then wcGo cs false
    else (if inw then 0 else 1) + wcGo cs true

def wordCount (l : PyStr) : Nat := wcGo l false

/-- ASCII model of Python `str.lower` on one character. -/
def pyLowerC (c : Char) : Char :=
  if 65 ≤ c.toNat ∧ c.toNat ≤ 90 then Char.ofNat (c.toNat + 32) else c

/-- ASCII model of Python `str.upper` on one character. -/
def pyUpperC (c : Char) : Char :=
  if 97 ≤ c.toNat ∧ c.toNat ≤ 122 then Char.ofNat (c.toNat - 32) else c

def pyLower (l : PyStr) : PyStr := l.map pyLowerC

/-- Python `str.capitalize`: first character uppercased, the rest lowercased. -/
def pyCapitalize : PyStr → PyStr
  | [] => []
  | c :: cs => pyUpperC c :: cs.map pyLowerC

/-- Python `str.strip()` (no argument: strips whitespace at both ends). -/
def pyStripWs (l : PyStr) : PyStr :=
  ((l.dropWhile pyWs).reverse.dropWhile pyWs).reverse

/-- Python `str.rstrip(".")`: drops trailing dots. -/
def dropTrailingDots (l : PyStr) : PyStr :=
  (l.reverse.dropWhile (fun c => c == '.')).reverse

/-- Python `sep.flatten(pieces)`. -/
def pyJoin (sep : PyStr) : List PyStr → PyStr
  | [] => []
  | [x] => x
  | x :: xs => x ++ sep ++ pyJoin sep xs

/-- Number of positions of `l` at which the pattern `p` occurs
(occurrences may overlap; for nonempty `p` this counts the `k` with
`p <+: l.drop k`). -/
def countOccur (p : PyStr) : PyStr → Nat
  | [] => if p = [] then 1 else 0
  | c :: cs => (if p.isPrefixOf (c :: cs) then 1 else 0) + countOccur p cs

/-!  ### `backend/workers/summary_worker.py`  -/

/-- `_looks_like_valid_summary` of `summary_worker.py`.  The float test
`alpha_ratio < 0.4` (with `alpha_ratio = sum(ch.isalpha() for ch in text)
/ max(len(text), 1)`) is modelled exactly over `ℚ`. -/
def looks_like_valid_summary (text : PyStr) : Bool :=
  if text = [] then false
  else if mkRat (text.countP pyIsAlpha) (max text.length 1) < mkRat 2 5 then false
  else if text.any (fun c => !(allowedAscii c)) then false
  else if wordCount text < 8 then false
  else true

/-- `_fallback_summary` of `summary_worker.py`: deterministic template
summary keyed by the number of captions (the `else` arm of the source also
covers the empty list). -/
def fallback_summary (captions : List PyStr) : PyStr :=
  match captions with
  | [c] =>
      strL "This image shows " ++ c ++
        strL ". A precious moment capturing the warmth and connection of family memories."
  | [c1, c2] =>
      strL "These images capture " ++ c1 ++ strL " and " ++ c2 ++
        strL ". Together they tell a story of family bonds and cherished moments."
  | cs =>
      strL "These photos show " ++ pyJoin (strL ", ") (cs.take 2) ++
        strL ", and more beautiful moments. Each image captures the love, joy, and connection that define these precious family memories."

/-- The user prompt built by `summarize_captions` (the odd bytes before
the `3` reproduce the source file's mojibake exactly). -/
def summaryUserPrompt (captions : List PyStr) : PyStr :=
  strL "\nHere are the captions for some family photos:\n\n" ++
    pyJoin (strL "\n") (captions.map (fun c => strL "- " ++ c)) ++
    strL "\n\nWrite a 2â€“3 sentence narrative summary that captures the key moments, \npeople, and feelings. Make it personal and evocative.\n"

def summarySystemPrompt : PyStr :=
  strL "You are a storyteller. Given a list of photo captions, write a short, cohesive narrative summarizing the scene, people, and emotions that connect these images."

/-- Outcome of the HTTP round trip inside `_call_llmstudio`:
`reqFail` is any `requests.exceptions.RequestException` (connection error,
timeout, bad HTTP status), `raises` is any other exception escaping the
call (JSON decode error, missing key), `content t` is a successful
response whose extracted message text is `t`. -/
inductive LlmHttp where
  | reqFail : LlmHttp
  | raises : LlmHttp
  | content (text : PyStr) : LlmHttp

/-- Environment of one `_call_llmstudio` invocation: the
`LLMSTUDIO_API_URL` variable and the HTTP outcome. -/
structure LlmEnv where
  baseUrl : Option PyStr
  http : LlmHttp

/-- `_call_llmstudio` of `summary_worker.py`.  With no base URL it raises
`RuntimeError` (`Except.error`); a `RequestException` is caught inside the
function and turned into the literal placeholder string
`"Generated response for: " + user_prompt[:100] + "..."`; any other
exception propagates; a successful response is returned `.strip()`ped. -/
def call_llmstudio (env : LlmEnv) (systemPrompt userPrompt : PyStr) : Except Unit PyStr :=
  match env.baseUrl with
  | none => Except.error ()
  | some _ =>
    match env.http with
    | LlmHttp.raises => Except.error ()
    | LlmHttp.reqFail =>
        Except.ok (strL "Generated response for: " ++ userPrompt.take 100 ++ strL "...")
    | LlmHttp.content t => Except.ok (pyStripWs t)

/-- `summarize_captions` of `summary_worker.py`: try the LLM, raise
`ValueError` on a gate rejection, and catch every exception with
`_fallback_summary(captions)`. -/
def summarize_captions (env : LlmEnv) (captions : List PyStr) : PyStr :=
  match call_llmstudio env summarySystemPrompt (summaryUserPrompt captions) with
  | Except.error _ => fallback_summary captions
  | Except.ok s => if looks_like_valid_summary s then s else fallback_summary captions

/-- Python's substring test `p in text`: does `p` occur at some position? -/
def hasSub (p : PyStr) : PyStr → Bool
  | [] => p.isPrefixOf []
  | c :: cs => p.isPrefixOf (c :: cs) || hasSub p cs

/-!  ### `backend/workers/lyrics_worker.py`  -/

/-- The `_STOPWORDS` set of `lyrics_worker.py`. -/
def stopwords : List PyStr :=
  [strL "the", strL "and", strL "with", strL "from", strL "that", strL "this",
   strL "those", strL "these", strL "into", strL "about", strL "their",
   strL "there", strL "they", strL "them", strL "we", strL "our", strL "ours",
   strL "your", strL "yours", strL "over", strL "under", strL "around",
   strL "were", strL "been", strL "have", strL "has", strL "had", strL "you",
   strL "for", strL "just", strL "like", strL "through"]

/-- `_looks_like_valid_lyrics` of `lyrics_worker.py`. -/
def looks_like_valid_lyrics (text : PyStr) : Bool :=
  if text = [] then false
  else if !(hasSub (strL "[Verse") text) || !(hasSub (strL "[Chorus]") text) then false
  else if text.any (fun c => !(allowedAscii c)) then false
  else if wordCount text < 20 then false
  else true

/-- Continuation characters of the keyword regexp `[A-Za-z][A-Za-z'-]*`
(letters, the apostrophe, the hyphen). -/
def isKwCont (c : Char) : Bool := pyIsAlpha c || c.toNat = 39 || c.toNat = 45

/-- Scanner for `re.findall(r"[A-Za-z][A-Za-z'-]*", summary)`: skip
non-letters, and at each letter take the maximal run of continuation
characters.  The fuel argument (`length + 1` at the root call) only makes
the recursion structural; every call consumes at least one character. -/
def kwTokensAux : Nat → PyStr → List PyStr
  | 0, _ => []
  | _ + 1, [] => []
  | fuel + 1, c :: cs =>
    if pyIsAlpha c then (c :: cs.takeWhile isKwCont) :: kwTokensAux fuel (cs.dropWhile isKwCont)
    else kwTokensAux fuel cs

def kwTokens (l : PyStr) : List PyStr := kwTokensAux (l.length + 1) l

/-- The filtering loop of `_extract_keywords`: drop tokens shorter than 3
characters or whose lowercase form is a stop word, keep first occurrences
only, and stop once 12 keywords are collected (the `limit` default). -/
def buildKeywords : List PyStr → List PyStr → List PyStr
  | [], acc => acc
  | t :: ts, acc =>
    if t.length < 3 || stopwords.contains (pyLower t) then buildKeywords ts acc
    else
      let acc2 := if acc.contains t then acc else acc ++ [t]
      if 12 ≤ acc2.length then acc2 else buildKeywords ts acc2

def extract_keywords (summary : PyStr) : List PyStr := buildKeywords (kwTokens summary) []

/-- The default keyword pool substituted by `_make_fallback_lines` when
the extracted pool is empty. -/
def defaultKeywords : List PyStr :=
  [strL "memories", strL "family", strL "laughter", strL "home"]

/-- One keyword-cycling filler line of `_make_fallback_lines`. -/
def padLine (keyword mood : PyStr) : PyStr :=
  pyCapitalize keyword ++ strL " in " ++ pyLower mood ++ strL " light we keep."

/-- The `while len(lines) < target_count` loop of `_make_fallback_lines`:
`i` is the running `idx`, the second argument the number of lines still
missing. -/
def padLines (kws : List PyStr) (mood : PyStr) : Nat → Nat → List PyStr
  | _, 0 => []
  | i, n + 1 => padLine (kws.getD (i % kws.length) []) mood :: padLines kws mood (i + 1) n

/-- `_make_fallback_lines` of `lyrics_worker.py`: an empty keyword pool is
replaced by `defaultKeywords` first, the `for` loop copies at most
`target_count` base lines, the `while` loop pads with keyword lines, and
the result is truncated (`lines[:target_count]`). -/
def make_fallback_lines (baseLines : List PyStr) (targetCount : Nat)
    (keywords : List PyStr) (mood : PyStr) : List PyStr :=
  let kws := if keywords = [] then defaultKeywords else keywords
  let taken := baseLines.take targetCount
  (taken ++ padLines kws mood 0 (targetCount - taken.length)).take targetCount

def isPunct : Option Char → Bool
  | some c => c = '.' || c = '!' || c = '?'
  | none => false

/-- Character-level model of `re.split(r"(?<=[.!?])\s+", s)`: a whitespace
character preceded by terminal punctuation starts a new piece and is
dropped.  (The regexp consumes a maximal whitespace run; the characters
of such a run after the first are carried into the next piece here and
removed by the `strip()` of `sentencesOf`, which yields the same stripped,
filtered sentences.) -/
def sentPieces (prev : Option Char) : PyStr → List PyStr
  | [] => [[]]
  | c :: cs =>
    if pyWs c && isPunct prev then [] :: sentPieces (some c) cs
    else
      match sentPieces (some c) cs with
      | [] => [[c]]
      | r :: rs => (c :: r) :: rs

/-- The sentence list of `_fallback_lyrics`:
`[s.strip() for s in re.split(r"(?<=[.!?])\s+", summary.strip()) if s.strip()]`. -/
def sentencesOf (summary : PyStr) : List PyStr :=
  ((sentPieces none (pyStripWs summary)).map pyStripWs).filter (fun s => s ≠ [])

def digitCh : Nat → Char
  | 0 => '0'
  | 1 => '1'
  | 2 => '2'
  | 3 => '3'
  | 4 => '4'
  | 5 => '5'
  | 6 => '6'
  | 7 => '7'
  | 8 => '8'
  | _ => '9'

/-- Decimal digits of `n`, most significant first (fuel recursion; the
fuel `n + 1` always suffices since `n / 10 < n`). -/
def natCharsAux : Nat → Nat → PyStr
  | 0, _ => []
  | fuel + 1, n => if n < 10 then [digitCh n] else natCharsAux fuel (n / 10) ++ [digitCh (n % 10)]

/-- Python `str(n)` for a natural number. -/
def natChars (n : Nat) : PyStr := natCharsAux (n + 1) n

/-- The `base_lines` list built for one verse of `_fallback_lyrics`. -/
def verseBaseLines (sentence genre mood : PyStr) (keywords : List PyStr) : List PyStr :=
  [dropTrailingDots sentence,
   pyCapitalize mood ++ strL " echoes in a " ++ pyLower genre ++ strL " sway.",
   (let kp := pyJoin (strL " and ") (keywords.take 2)
    if kp = [] then strL "Family memories" ++ strL " dance in the frame."
    else kp ++ strL " dance in the frame."),
   strL "Holding to the quiet light of home."]

/-- One `[Verse i]` section of `_fallback_lyrics` (`idx` is 0-based; the
header uses `str(idx + 1)`). -/
def mkVerse (sentences : List PyStr) (genre mood : PyStr) (keywords : List PyStr)
    (linesPerVerse idx : Nat) : PyStr :=
  let sentence := sentences.getD (idx % sentences.length) []
  strL "[Verse " ++ natChars (idx + 1) ++ strL "]\n" ++
    pyJoin (strL "\n")
      (make_fallback_lines (verseBaseLines sentence genre mood keywords) linesPerVerse keywords mood)

/-- The `chorus_base` list of `_fallback_lyrics`. -/
def chorusBase (genre mood : PyStr) : List PyStr :=
  [strL "Hold on to this " ++ pyLower mood ++ strL " glow tonight.",
   strL "Family hearts beating in a " ++ pyLower genre ++ strL " song.",
   strL "Every laugh and tear we treasure tight.",
   strL "Love keeps the rhythm, steady and strong."]

/-- The `[Chorus]` section of `_fallback_lyrics` (target line count
`max(4, min(6, lines_per_verse))`). -/
def chorusSection (genre mood : PyStr) (keywords : List PyStr) (linesPerVerse : Nat) : PyStr :=
  strL "[Chorus]\n" ++
    pyJoin (strL "\n")
      (make_fallback_lines (chorusBase genre mood) (max 4 (min 6 linesPerVerse)) keywords mood)

/-- The `lyrics_sections` assembly loop: every verse, the chorus after the
first verse, and a final chorus. -/
def lyricsSections (verses : List PyStr) (chorus : PyStr) : List PyStr :=
  match verses with
  | [] => [chorus]
  | v :: vs => v :: chorus :: (vs ++ [chorus])

/-- `_fallback_lyrics` of `lyrics_worker.py`. -/
def fallback_lyrics (summary genre mood : PyStr) (linesPerVerse numVerses : Nat) : PyStr :=
  let sentences0 := sentencesOf summary
  let sentences :=
    if sentences0 = []
    then [strL "We gather together, sharing the stories that make this family ours."]
    else sentences0
  let keywords := extract_keywords summary
  let verses := (List.range numVerses).map (mkVerse sentences genre mood keywords linesPerVerse)
  pyJoin (strL "\n\n") (lyricsSections verses (chorusSection genre mood keywords linesPerVerse))

def lyricsSystemPrompt : PyStr :=
  strL "You are a professional songwriter. You write structured, singable lyrics with clear verses and choruses, suitable for modern music."

/-- The user prompt built by `generate_lyrics` (mojibake reproduced from
the source; `\x27` is the apostrophe). -/
def lyricsUserPrompt (summary genre mood : PyStr) (linesPerVerse numVerses : Nat) : PyStr :=
  strL "\nI have this story summary of some family photos:\n\n" ++ summary ++
    strL "\n\nWrite song lyrics based on this story.\n\nConstraints:\n- Genre feel: " ++ genre ++
    strL "\n- Mood: " ++ mood ++
    strL "\n- Structure: " ++ natChars numVerses ++
    strL " verses + 1 chorus that repeats\n- Around " ++ natChars linesPerVerse ++
    strL " lines per verse, 4â€“6 lines for the chorus\n- Make it nostalgic, specific, and visual, referencing scenes from the story\n- Avoid profanity, keep it family-friendly\n\nFormat EXACTLY like this:\n\n[Verse 1]\n...\n\n[Chorus]\n...\n\n[Verse 2]\n...\n\nDon\x27t add explanations before or after the lyrics.\n"

/-- `generate_lyrics` of `lyrics_worker.py`: try the LLM, raise on a gate
rejection, and catch every exception with `_fallback_lyrics`. -/
def generate_lyrics (env : LlmEnv) (summary genre mood : PyStr)
    (linesPerVerse numVerses : Nat) : PyStr :=
  match call_llmstudio env lyricsSystemPrompt
      (lyricsUserPrompt summary genre mood linesPerVerse numVerses) with
  | Except.error _ => fallback_lyrics summary genre mood linesPerVerse numVerses
  | Except.ok s =>
    if looks_like_valid_lyrics s then s
    else fallback_lyrics summary genre mood linesPerVerse numVerses

/-!  ### `backend/workers/vocal_worker.py` (audio post-processing)

Amplitudes are modelled as exact rationals; the float sine `np.sin` and
the float constant `2 * np.pi` are abstract parameters (`sine`, `twoPiQ`),
since only the shape of the tone matters to the claims.  A waveform is a
frame-major list of channel lists, the layout `generate_vocals` persists. -/

abbrev Wave := List (List ℚ)

def rowPeak (row : List ℚ) : ℚ := row.foldr (fun x a => max |x| a) 0

/-- `np.abs(audio_np).max()` over a frames-by-channels array. -/
def peak2 (w : Wave) : ℚ := w.foldr (fun r a => max (rowPeak r) a) 0

/-- `np.linspace a b n` (endpoints included, `n` evenly spaced samples). -/
def linspaceQ (a b : ℚ) (n : Nat) : List ℚ :=
  (List.range n).map (fun i => if n = 1 then a else a + (b - a) * i / ((n : ℚ) - 1))

/-- The silent-synthesis fallback tone of `generate_vocals`:
`0.1 * np.sin(2 * np.pi * 440 * t)` on `t = np.linspace(0, 2.0, int(sr * 2.0))`
— a 2-second 440 Hz sine of amplitude `0.1`. -/
def fallbackToneQ (sr : Nat) (sine : ℚ → ℚ) (twoPiQ : ℚ) : List ℚ :=
  (linspaceQ 0 2 (2 * sr)).map (fun t => (1 / 10) * sine (twoPiQ * 440 * t))

/-- `np.expand_dims(-, axis=1)`: a mono waveform as one-channel frames. -/
def expandMono (l : List ℚ) : Wave := l.map (fun x => [x])

/-- The unconditional normalization step of `generate_vocals`:
`if max_val > 0: audio_np = audio_np / max_val * 0.95`. -/
def vocalNormalize (w : Wave) : Wave :=
  let maxVal := peak2 w
  if 0 < maxVal then w.map (List.map (fun x => x / maxVal * (19 / 20))) else w

/-- The audio post-processing tail of `generate_vocals`
(`vocal_worker.py`): replace a waveform whose peak absolute amplitude is
below `0.001` by the fallback tone (expanded to one channel, exactly as
the source's `np.expand_dims`), then normalize to the `0.95` headroom
peak.  The `ndim == 1` re-expansion of the source is a no-op here because
`Wave` is always two-dimensional. -/
def vocalPost (audio : Wave) (sr : Nat) (sine : ℚ → ℚ) (twoPiQ : ℚ) : Wave :=
  let maxAmp := peak2 audio
  let audio1 := if maxAmp < 1 / 1000 then expandMono (fallbackToneQ sr sine twoPiQ) else audio
  vocalNormalize audio1

/-- `os.path.flatten(out_dir, job_id + "_vocals.wav")` for a directory
without a trailing slash, as `generate_vocals` builds it. -/
def vocalsOutPath (outDir id : PyStr) : PyStr := outDir ++ strL "/" ++ id ++ strL "_vocals.wav"

/-!  ### `backend/workers/music_worker.py` (`mix_audio_tracks`)

The pydub collaborator is modelled through the environment: loading a WAV
may fail (`none`), a decibel offset becomes a sample gain factor
(`gainFactor`), and pydub's `normalize()` a final gain (`normGain`) —
both length-preserving sample-wise scalings, which is all the claims
inspect.  `exportOk` is whether the final `export` raises. -/

structure MixEnv where
  loadMusic : Option (List ℚ)
  loadVocals : Option (List ℚ)
  gainFactor : Int → ℚ
  normGain : List ℚ → ℚ
  exportOk : Bool

/-- pydub `music.overlay(vocals)` on equal-length tracks: sample-wise sum. -/
def overlaySeg (a b : List ℚ) : List ℚ := List.zipWith (fun x y => x + y) a b

/-- `mix_audio_tracks` of `music_worker.py`: gain-adjust both tracks
(`music - 8 dB`, vocals unchanged), truncate both to the shorter length,
overlay, normalize, export; the enclosing `try` returns `vocals_path`
unmodified on any exception (either load failing, or the export failing).
The second component is the track written to `output_path`, if any. -/
def mix_audio_tracks (env : MixEnv) (musicPath vocalsPath outputPath : PyStr) :
    PyStr × Option (List ℚ) :=
  match env.loadMusic with
  | none => (vocalsPath, none)
  | some m =>
    match env.loadVocals with
    | none => (vocalsPath, none)
    | some v =>
      let m1 := m.map (fun x => x * env.gainFactor (-8))
      let v1 := v.map (fun x => x * env.gainFactor 0)
      let n := min m1.length v1.length
      let mixed := overlaySeg (m1.take n) (v1.take n)
      let final := mixed.map (fun x => x * env.normGain mixed)
      if env.exportOk then (outputPath, some final) else (vocalsPath, none)

/-!  ### `backend/workers/packaging_worker.py` and the job store  -/

/-- Uppercase hexadecimal digit. -/
def hexCh (n : Nat) : Char := (strL "0123456789ABCDEF").getD n '0'

/-- UTF-8 bytes of one code point (as used by `urllib.parse.quote_plus`). -/
def utf8Bytes (c : Char) : List Nat :=
  let n := c.toNat
  if n < 128 then [n]
  else if n < 2048 then [192 + n / 64, 128 + n % 64]
  else if n < 65536 then [224 + n / 4096, 128 + (n / 64) % 64, 128 + n % 64]
  else [240 + n / 262144, 128 + (n / 4096) % 64, 128 + (n / 64) % 64, 128 + n % 64]

def quoteByte (b : Nat) : PyStr := ['%', hexCh (b / 16), hexCh (b % 16)]

/-- `urllib.parse.quote_plus` on one character: space becomes `+`,
unreserved ASCII (letters, digits, `_.-~`) is kept, everything else is
percent-encoded byte-wise. -/
def quotePlusC (c : Char) : PyStr :=
  if c.toNat = 32 then ['+']
  else if pyIsAlpha c || (48 ≤ c.toNat && c.toNat ≤ 57)
      || c.toNat = 95 || c.toNat = 46 || c.toNat = 45 || c.toNat = 126 then [c]
  else ((utf8Bytes c).map quoteByte).flatten

def quotePlus (l : PyStr) : PyStr := (l.map quotePlusC).flatten

/-- `os.path.basename`: the part after the last slash. -/
def baseName (p : PyStr) : PyStr := (p.reverse.takeWhile (fun c => !(c == '/'))).reverse

/-- The default `base_url` argument of `package_result`. -/
def defaultBaseUrl : PyStr :=
  strL "https://sahaarkajyoti2018--family-photo-song-backend-download-audio.modal.run"

/-- Job status strings of the store records. -/
inductive Status where
  | created : Status
  | queued : Status
  | processing : Status
  | complete : Status
  | failed : Status
deriving DecidableEq

/-- One `JOB_STORE` record.  Python dict keys that a given writer does not
set are `none` (the store holds plain dicts, each write replaces the whole
record). -/
structure JobRec where
  jid : PyStr
  status : Status
  image_urls : List PyStr
  image_paths : List PyStr
  genre : Option PyStr
  mood : Option PyStr
  captions : Option (List PyStr)
  summary : Option PyStr
  lyrics : Option PyStr
  audio_url : Option PyStr
  audio_path : Option PyStr
  audio_filename : Option PyStr
  file_path : Option PyStr
  error : Option PyStr
deriving DecidableEq

/-- The `JOB_STORE` Modal dict: association list, most recent write first. -/
abbrev Store := List (PyStr × JobRec)

def setJob (s : Store) (id : PyStr) (r : JobRec) : Store := (id, r) :: s

/-- The record written by `upload_photo` / `upload_photo_files`
(`status="created"`, one image field filled, no other keys). -/
def createdRec (id : PyStr) (urls paths : List PyStr) : JobRec :=
  { jid := id, status := Status.created, image_urls := urls, image_paths := paths,
    genre := none, mood := none, captions := none, summary := none, lyrics := none,
    audio_url := none, audio_path := none, audio_filename := none,
    file_path := none, error := none }

/-- The record `{"job_id": ..., "status": "failed", "error": ...}` written
by both failure paths of `_run_pipeline` — note that it drops every other
field of the previous record, including the image sources. -/
def failedRec (id msg : PyStr) : JobRec :=
  { jid := id, status := Status.failed, image_urls := [], image_paths := [],
    genre := none, mood := none, captions := none, summary := none, lyrics := none,
    audio_url := none, audio_path := none, audio_filename := none,
    file_path := none, error := some msg }

/-- `package_result` of `packaging_worker.py` with its default `base_url`:
the complete-job record. -/
def package_result (id : PyStr) (captions : List PyStr) (summary lyrics audioPath : PyStr) : JobRec :=
  let publicUrl := defaultBaseUrl ++ strL "?job_id=" ++ quotePlus id
  { jid := id, status := Status.complete, image_urls := [], image_paths := [],
    genre := none, mood := none,
    captions := some captions, summary := some summary, lyrics := some lyrics,
    audio_url := some publicUrl, audio_path := some publicUrl,
    audio_filename := some (baseName audioPath), file_path := some audioPath,
    error := none }

/-!  ### `backend/api/submit_job.py`  -/

inductive SubmitErr where
  | notFound : SubmitErr
  | invalidStatus (st : Status) : SubmitErr
  | noImages : SubmitErr
deriving DecidableEq

/-- The `submit_job` endpoint: 404 on an unknown id, 400 unless the stored
status is `created` or `failed`, 400 when both image lists are empty;
otherwise set genre/mood, move the job to `queued`, store it, and spawn
the pipeline (spawning is modelled by the `Step.submit` rule).  All error
paths raise before the store assignment, so they return the store
unchanged. -/
def submit_job (store : Store) (id genre mood : PyStr) : Store × Except SubmitErr (PyStr × Status) :=
  match List.lookup id store with
  | none => (store, Except.error SubmitErr.notFound)
  | some j =>
    if j.status ≠ Status.created ∧ j.status ≠ Status.failed then
      (store, Except.error (SubmitErr.invalidStatus j.status))
    else if j.image_urls = [] ∧ j.image_paths = [] then
      (store, Except.error SubmitErr.noImages)
    else
      (setJob store id { j with genre := some genre, mood := some mood, status := Status.queued },
       Except.ok (id, Status.queued))

/-- The snapshot `job = dict(JOB_STORE[job_id])` taken once at the start
of `_run_pipeline`, reduced to the fields the stages read. -/
structure Snap where
  sources : List PyStr
  genre : PyStr
  mood : PyStr
deriving DecidableEq

/-- A pipeline task spawned by `submit_job`, before / after its first
store write. -/
inductive PipeTask where
  | spawned (id : PyStr) : PipeTask
  | started (id : PyStr) (snap : Snap) : PipeTask
deriving DecidableEq

def PipeTask.id : PipeTask → PyStr
  | PipeTask.spawned i => i
  | PipeTask.started i _ => i

structure SysState where
  store : Store
  tasks : List PipeTask

def noImagesMsg : PyStr := strL "No image sources (URLs or paths) stored on job"

/-- The record written by a successful `_run_pipeline` run: captions from
the captioning collaborator (`caps`, one per image source), summary and
lyrics through the embedded worker functions (with the per-call LLM
environments `es`, `el` and `generate_lyrics`'s default
`lines_per_verse=4`, `num_verses=2`), vocals at
`/audio/{job_id}_vocals.wav`, packaged by `package_result`. -/
def pipelineOkRec (id : PyStr) (snap : Snap) (caps : List PyStr) (es el : LlmEnv) : JobRec :=
  let summary := summarize_captions es caps
  let lyrics := generate_lyrics el summary snap.genre snap.mood 4 2
  package_result id caps summary lyrics (vocalsOutPath (strL "/audio") id)

/-- One atomic store interaction of the system.  Uploads create fresh
records; `submit` is exactly a successful `submit_job` call plus the
`spawn`; the three `start` rules are the branches at the top of
`_run_pipeline` (missing job / no image sources / the `processing`
write), and the two `finish` rules its `try` body and `except` handler.
Steps of different jobs interleave arbitrarily. -/
inductive Step : SysState → SysState → Prop where
  | uploadUrls (st : SysState) (id : PyStr) (urls : List PyStr) :
      List.lookup id st.store = none → urls ≠ [] →
      Step st ⟨setJob st.store id (createdRec id urls []), st.tasks⟩
  | uploadFiles (st : SysState) (id : PyStr) (paths : List PyStr) :
      List.lookup id st.store = none → paths ≠ [] →
      Step st ⟨setJob st.store id (createdRec id [] paths), st.tasks⟩
  | submit (st : SysState) (id genre mood : PyStr) (s' : Store) (r : PyStr × Status) :
      submit_job st.store id genre mood = (s', Except.ok r) →
      Step st ⟨s', PipeTask.spawned id :: st.tasks⟩
  | startMissing (st : SysState) (id : PyStr) :
      PipeTask.spawned id ∈ st.tasks → List.lookup id st.store = none →
      Step st ⟨st.store, st.tasks.erase (PipeTask.spawned id)⟩
  | startNoImages (st : SysState) (id : PyStr) (j : JobRec) :
      PipeTask.spawned id ∈ st.tasks → List.lookup id st.store = some j →
      j.image_urls ++ j.image_paths = [] →
      Step st ⟨setJob st.store id (failedRec id noImagesMsg), st.tasks.erase (PipeTask.spawned id)⟩
  | startOk (st : SysState) (id : PyStr) (j : JobRec) :
      PipeTask.spawned id ∈ st.tasks → List.lookup id st.store = some j →
      j.image_urls ++ j.image_paths ≠ [] →
      Step st ⟨setJob st.store id { j with status := Status.processing },
        PipeTask.started id
            { sources := j.image_urls ++ j.image_paths,
              genre := j.genre.getD (strL "pop"), mood := j.mood.getD (strL "nostalgic") } ::
          st.tasks.erase (PipeTask.spawned id)⟩
  | finishOk (st : SysState) (id : PyStr) (snap : Snap) (caps : List PyStr) (es el : LlmEnv) :
      PipeTask.started id snap ∈ st.tasks → caps.length = snap.sources.length →
      Step st ⟨setJob st.store id (pipelineOkRec id snap caps es el),
        st.tasks.erase (PipeTask.started id snap)⟩
  | finishFail (st : SysState) (id : PyStr) (snap : Snap) (msg : PyStr) :
      PipeTask.started id snap ∈ st.tasks →
      Step st ⟨setJob st.store id (failedRec id msg), st.tasks.erase (PipeTask.started id snap)⟩

/-- States reachable from the empty job store with no pipeline running. -/
inductive Reachable : SysState → Prop where
  | init : Reachable ⟨[], []⟩
  | step {s t : SysState} : Reachable s → Step s t → Reachable t

/-- The state-machine edges permitted by the specification. -/
def allowedEdge (a b : Status) : Prop :=
  (a = Status.created ∧ b = Status.queued) ∨
  (a = Status.queued ∧ b = Status.processing) ∨
  (a = Status.processing ∧ b = Status.complete) ∨
  (a = Status.processing ∧ b = Status.failed) ∨
  (a = Status.failed ∧ b = Status.queued)

/-- All stage artifacts of a completed job are present and non-empty. -/
def completeOk (j : JobRec) : Prop :=
  (∃ cs, j.captions = some cs ∧ cs ≠ []) ∧
  (∃ s, j.summary = some s ∧ s ≠ []) ∧
  (∃ s, j.lyrics = some s ∧ s ≠ []) ∧
  (∃ s, j.audio_url = some s ∧ s ≠ []) ∧
  (∃ s, j.audio_filename = some s ∧ s ≠ [])

/-- The inductive system invariant: task ids are distinct (at most one
pipeline per job), a spawned task's job is `queued` with image sources
present, a started task's job is `processing` and its snapshot has image
sources, and every `complete` record carries its artifacts. -/
def SysInv (st : SysState) : Prop :=
  (st.tasks.map PipeTask.id).Nodup ∧
  (∀ id, PipeTask.spawned id ∈ st.tasks →
    ∃ j, List.lookup id st.store = some j ∧ j.status = Status.queued ∧
      j.image_urls ++ j.image_paths ≠ []) ∧
  (∀ id snap, PipeTask.started id snap ∈ st.tasks →
    (∃ j, List.lookup id st.store = some j ∧ j.status = Status.processing) ∧
      snap.sources ≠ []) ∧
  (∀ id j, List.lookup id st.store = some j → j.status = Status.complete → completeOk j)

/-!  ## Theorems  -/

theorem padLines_length (kws : List PyStr) (mood : PyStr) :
    ∀ n i, (padLines kws mood i n).length = n := by
  intro n
  induction n with
  | zero => intro i; rfl
  | succ n ih => intro i; simp [padLines, ih]

/-- C10: for every base-line list, target count, keyword pool (including
the empty one) and mood, `_make_fallback_lines` returns exactly
`target_count` lines; the empty pool is replaced by the fixed default pool
(so the run with `[]` coincides with the run with `defaultKeywords`), and
the pool actually indexed by the cycling modulo is never empty. -/
theorem make_fallback_lines_total (base : List PyStr) (target : Nat)
    (keywords : List PyStr) (mood : PyStr) :
    (make_fallback_lines base target keywords mood).length = target ∧
    make_fallback_lines base target [] mood = make_fallback_lines base target defaultKeywords mood ∧
    0 < (if keywords = [] then defaultKeywords else keywords).length := by
  refine ⟨?_, ?_, ?_⟩
  · simp only [make_fallback_lines, List.length_take, List.length_append, padLines_length]
    omega
  · simp [make_fallback_lines]
  · by_cases h : keywords = []
    · simp [h, defaultKeywords]
    · simp [h]
      exact List.length_pos.mpr h

/-- C9: if loading either input track fails, or the final export fails,
`mix_audio_tracks` returns the vocals path unmodified and writes nothing
— the mixing error never escapes. -/
theorem mix_audio_tracks_fallback (env : MixEnv) (musicPath vocalsPath outputPath : PyStr)
    (h : env.loadMusic = none ∨ env.loadVocals = none ∨ env.exportOk = false) :
    mix_audio_tracks env musicPath vocalsPath outputPath = (vocalsPath, none) := by
  unfold mix_audio_tracks
  rcases h with h | h | h
  · rw [h]
  · cases hm : env.loadMusic with
    | none => rfl
    | some m => rw [h]
  · cases hm : env.loadMusic with
    | none => rfl
    | some m =>
      cases hv : env.loadVocals with
      | none => rfl
      | some v => simp [h]

theorem mix_audio_tracks_fallback_witness :
    ({ loadMusic := none, loadVocals := some [1], gainFactor := fun _ => 1,
       normGain := fun _ => 1, exportOk := true } : MixEnv).loadMusic = none ∧
    mix_audio_tracks
        { loadMusic := none, loadVocals := some [1], gainFactor := fun _ => 1,
          normGain := fun _ => 1, exportOk := true }
        (strL "/tmp/m.wav") (strL "/tmp/v.wav") (strL "/tmp/out.wav") =
      (strL "/tmp/v.wav", none) :=
  ⟨rfl, mix_audio_tracks_fallback _ _ _ _ (Or.inl rfl)⟩

/-- C8: when mixing succeeds, both gain-adjusted tracks are truncated to
the shorter one before overlaying, so the written track's length is the
minimum of the input lengths; in particular a 10-second instrumental and
a 6-second vocal track (at any common sample rate) yield an output of
exactly 6 seconds. -/
theorem mix_audio_tracks_truncates (env : MixEnv) (musicPath vocalsPath outputPath : PyStr)
    (m v : List ℚ) (hm : env.loadMusic = some m) (hv : env.loadVocals = some v)
    (he : env.exportOk = true) :
    ∃ f, mix_audio_tracks env musicPath vocalsPath outputPath = (outputPath, some f) ∧
      f.length = min m.length v.length ∧
      (∀ sr, m.length = 10 * sr → v.length = 6 * sr → f.length = 6 * sr) := by
  unfold mix_audio_tracks
  rw [hm, hv]
  simp only [he, if_true]
  refine ⟨_, rfl, ?_, ?_⟩
  · simp only [overlaySeg, List.length_map, List.length_zipWith, List.length_take]
    omega
  · intro sr h10 h6
    simp only [overlaySeg, List.length_map, List.length_zipWith, List.length_take, h10, h6]
    omega

theorem mix_audio_tracks_truncates_witness :
    ∃ f, mix_audio_tracks
        { loadMusic := some (List.replicate 10 1), loadVocals := some (List.replicate 6 1),
          gainFactor := fun _ => 1, normGain := fun _ => 1, exportOk := true }
        (strL "/tmp/m.wav") (strL "/tmp/v.wav") (strL "/tmp/out.wav") =
      (strL "/tmp/out.wav", some f) ∧
      f.length = min (List.replicate (10:Nat) (1:ℚ)).length (List.replicate 6 (1:ℚ)).length ∧
      (∀ sr, (List.replicate 10 (1:ℚ)).length = 10 * sr →
        (List.replicate 6 (1:ℚ)).length = 6 * sr → f.length = 6 * sr) :=
  mix_audio_tracks_truncates _ _ _ _ _ _ rfl rfl rfl

/-- C5: calling submit on a job whose stored status is neither `created`
nor `failed` returns the `InvalidTransition`-style 400 error naming that
status, and the store is returned unchanged (the exception is raised
before any assignment). -/
theorem submit_job_invalid_status (store : Store) (id genre mood : PyStr) (j : JobRec)
    (hl : List.lookup id store = some j)
    (h1 : j.status ≠ Status.created) (h2 : j.status ≠ Status.failed) :
    submit_job store id genre mood = (store, Except.error (SubmitErr.invalidStatus j.status)) := by
  unfold submit_job
  rw [hl]
  simp [h1, h2]

theorem submit_job_invalid_status_witness :
    ({ createdRec (strL "j") [strL "u"] [] with status := Status.queued } : JobRec).status ≠
        Status.created ∧
    submit_job [(strL "j", { createdRec (strL "j") [strL "u"] [] with status := Status.queued })]
        (strL "j") (strL "pop") (strL "calm") =
      ([(strL "j", { createdRec (strL "j") [strL "u"] [] with status := Status.queued })],
        Except.error (SubmitErr.invalidStatus Status.queued)) :=
  ⟨by decide,
    submit_job_invalid_status
      [(strL "j", { createdRec (strL "j") [strL "u"] [] with status := Status.queued })]
      (strL "j") (strL "pop") (strL "calm")
      { createdRec (strL "j") [strL "u"] [] with status := Status.queued }
      rfl (by decide) (by decide)⟩

theorem rowPeak_map_mul (c : ℚ) (hc : 0 ≤ c) (row : List ℚ) :
    rowPeak (row.map (fun x => x * c)) = rowPeak row * c := by
  induction row with
  | nil => simp [rowPeak]
  | cons x xs ih =>
    simp only [rowPeak, List.map_cons, List.foldr_cons] at ih ⊢
    rw [ih, abs_mul, abs_of_nonneg hc, max_mul_of_nonneg _ _ hc]

theorem peak2_map_mul (c : ℚ) (hc : 0 ≤ c) (w : Wave) :
    peak2 (w.map (List.map (fun x => x * c))) = peak2 w * c := by
  induction w with
  | nil => simp [peak2]
  | cons r rs ih =>
    simp only [peak2, List.map_cons, List.foldr_cons] at ih ⊢
    rw [ih, rowPeak_map_mul c hc, max_mul_of_nonneg _ _ hc]

theorem peak2_single (x : ℚ) : peak2 [[x]] = |x| := by
  show max (max |x| 0) 0 = |x|
  rw [max_eq_left (abs_nonneg x), max_eq_left (abs_nonneg x)]

/-- C7: in the post-processing of `generate_vocals`, a waveform whose
peak absolute amplitude is `0.0005` is discarded and the fixed fallback
tone (2-second 440 Hz sine of amplitude `0.1`) is normalized and written
in its place; and a waveform of peak `0.5` is rescaled so that the final
peak absolute amplitude is exactly the `0.95` headroom target (exact over
`ℚ`, i.e. within floating-point tolerance of the float computation). -/
theorem vocalPost_spec (audio : Wave) (sr : Nat) (sine : ℚ → ℚ) (twoPiQ : ℚ) :
    (peak2 audio = 1 / 2000 →
      vocalPost audio sr sine twoPiQ = vocalNormalize (expandMono (fallbackToneQ sr sine twoPiQ))) ∧
    (peak2 audio = 1 / 2 → peak2 (vocalPost audio sr sine twoPiQ) = 19 / 20) := by
  constructor
  · intro h
    simp only [vocalPost, h]
    rw [if_pos (by norm_num)]
  · intro h
    simp only [vocalPost, h]
    rw [if_neg (by norm_num)]
    simp only [vocalNormalize, h]
    rw [if_pos (by norm_num)]
    have hfun : (fun x : ℚ => x / (1 / 2) * (19 / 20)) = (fun x : ℚ => x * (19 / 10)) := by
      funext x
      ring
    rw [hfun, peak2_map_mul (19 / 10) (by norm_num) audio, h]
    norm_num

theorem vocalPost_spec_witness :
    peak2 [[(1 : ℚ) / 2000]] = 1 / 2000 ∧ peak2 [[(1 : ℚ) / 2]] = 1 / 2 ∧
    vocalPost [[(1 : ℚ) / 2000]] 3 (fun _ => 0) 0 =
      vocalNormalize (expandMono (fallbackToneQ 3 (fun _ => 0) 0)) ∧
    peak2 (vocalPost [[(1 : ℚ) / 2]] 3 (fun _ => 0) 0) = 19 / 20 := by
  have h1 : peak2 [[(1 : ℚ) / 2000]] = 1 / 2000 :=
    (peak2_single _).trans (abs_of_nonneg (by norm_num))
  have h2 : peak2 [[(1 : ℚ) / 2]] = 1 / 2 :=
    (peak2_single _).trans (abs_of_nonneg (by norm_num))
  exact ⟨h1, h2, (vocalPost_spec [[(1 : ℚ) / 2000]] 3 (fun _ => 0) 0).1 h1,
    (vocalPost_spec [[(1 : ℚ) / 2]] 3 (fun _ => 0) 0).2 h2⟩

/-- C4 (amended): `summarize_captions` returns the deterministic fallback
`_fallback_summary(captions)` whenever `_call_llmstudio` raises (base URL
unset, or a non-request exception such as a JSON/key error) and whenever
the Quality Gate rejects the text the call returned; no exception ever
escapes (the function is total).  However an HTTP-level failure
(unreachable, timeout) does NOT raise: `_call_llmstudio` catches it and
returns the placeholder `"Generated response for: " + user_prompt[:100] +
"..."`, and `summarize_captions` returns that placeholder — not the
fallback generator's output — whenever it passes the Quality Gate. -/
theorem summarize_captions_fallback_policy (env : LlmEnv) (captions : List PyStr) :
    (env.baseUrl = none → summarize_captions env captions = fallback_summary captions) ∧
    (env.http = LlmHttp.raises → summarize_captions env captions = fallback_summary captions) ∧
    (∀ t, env.http = LlmHttp.content t → looks_like_valid_summary (pyStripWs t) = false →
      summarize_captions env captions = fallback_summary captions) ∧
    (∀ u, env.baseUrl = some u → env.http = LlmHttp.reqFail →
      summarize_captions env captions =
        (let placeholder :=
          strL "Generated response for: " ++ (summaryUserPrompt captions).take 100 ++ strL "..."
        if looks_like_valid_summary placeholder then placeholder else fallback_summary captions)) := by
  refine ⟨?_, ?_, ?_, ?_⟩
  · intro h
    simp [summarize_captions, call_llmstudio, h]
  · intro h
    cases hb : env.baseUrl with
    | none => simp [summarize_captions, call_llmstudio, hb]
    | some u => simp [summarize_captions, call_llmstudio, hb, h]
  · intro t ht hg
    cases hb : env.baseUrl with
    | none => simp [summarize_captions, call_llmstudio, hb]
    | some u => simp [summarize_captions, call_llmstudio, hb, ht, hg]
  · intro u hb hh
    simp [summarize_captions, call_llmstudio, hb, hh]

theorem summarize_captions_fallback_policy_witness :
    ({ baseUrl := none, http := LlmHttp.raises } : LlmEnv).baseUrl = none ∧
    summarize_captions { baseUrl := none, http := LlmHttp.raises } [strL "a dog"] =
      fallback_summary [strL "a dog"] :=
  ⟨rfl, (summarize_captions_fallback_policy { baseUrl := none, http := LlmHttp.raises }
    [strL "a dog"]).1 rfl⟩

/-- C4 (counterexample): with the LLM endpoint configured but unreachable
(a `RequestException`), the stage does not return
`_fallback_summary(captions)`: the placeholder built from the prompt
prefix passes the Quality Gate and is returned to the caller instead. -/
theorem summarize_captions_not_fallback_cex :
    summarize_captions { baseUrl := some (strL "http://x"), http := LlmHttp.reqFail }
        [strL "a dog running in the park with family and friends"] =
      strL "Generated response for: " ++
        (summaryUserPrompt [strL "a dog running in the park with family and friends"]).take 100 ++
        strL "..." ∧
    summarize_captions { baseUrl := some (strL "http://x"), http := LlmHttp.reqFail }
        [strL "a dog running in the park with family and friends"] ≠
      fallback_summary [strL "a dog running in the park with family and friends"] := by
  constructor
  · decide
  · decide

theorem lookup_setJob (s : Store) (i k : PyStr) (r : JobRec) :
    List.lookup k (setJob s i r) = if k = i then some r else List.lookup k s := by
  simp only [setJob, List.lookup]
  by_cases h : k = i
  · subst h
    simp
  · have hbe : (k == i) = false := beq_false_of_ne h
    simp [hbe, h]

theorem fallback_summary_ne_nil (captions : List PyStr) : fallback_summary captions ≠ [] := by
  rcases captions with _ | ⟨c1, _ | ⟨c2, _ | ⟨c3, rest⟩⟩⟩ <;> simp [fallback_summary, strL]

theorem valid_summary_ne_nil (s : PyStr) (h : looks_like_valid_summary s = true) : s ≠ [] := by
  intro hs
  rw [hs] at h
  exact absurd h (by decide)

theorem summarize_captions_ne_nil (env : LlmEnv) (captions : List PyStr) :
    summarize_captions env captions ≠ [] := by
  unfold summarize_captions
  cases call_llmstudio env summarySystemPrompt (summaryUserPrompt captions) with
  | error e => exact fallback_summary_ne_nil _
  | ok s =>
    by_cases hg : looks_like_valid_summary s = true
    · simpa [hg] using valid_summary_ne_nil s hg
    · simp only [Bool.not_eq_true] at hg
      simpa [hg] using fallback_summary_ne_nil captions

theorem valid_lyrics_ne_nil (s : PyStr) (h : looks_like_valid_lyrics s = true) : s ≠ [] := by
  intro hs
  rw [hs] at h
  exact absurd h (by decide)

theorem pyJoin_cons_ne_nil (sep x : PyStr) (xs : List PyStr) (hx : x ≠ []) :
    pyJoin sep (x :: xs) ≠ [] := by
  cases xs with
  | nil => exact hx
  | cons y ys =>
    simp only [pyJoin]
    intro hc
    rcases List.append_eq_nil.mp hc with ⟨h1, -⟩
    rcases List.append_eq_nil.mp h1 with ⟨h2, -⟩
    exact hx h2

theorem chorusSection_ne_nil (genre mood : PyStr) (keywords : List PyStr) (lpv : Nat) :
    chorusSection genre mood keywords lpv ≠ [] := by
  simp [chorusSection, strL]

theorem mkVerse_ne_nil (sentences : List PyStr) (genre mood : PyStr) (keywords : List PyStr)
    (lpv idx : Nat) : mkVerse sentences genre mood keywords lpv idx ≠ [] := by
  simp [mkVerse, strL]

theorem fallback_lyrics_ne_nil (summary genre mood : PyStr) (lpv nv : Nat) :
    fallback_lyrics summary genre mood lpv nv ≠ [] := by
  simp only [fallback_lyrics]
  cases nv with
  | zero =>
    simpa [lyricsSections, pyJoin] using chorusSection_ne_nil genre mood (extract_keywords summary) lpv
  | succ n =>
    have hne : (List.range (n + 1)).map
        (mkVerse (if sentencesOf summary = []
          then [strL "We gather together, sharing the stories that make this family ours."]
          else sentencesOf summary) genre mood (extract_keywords summary) lpv) ≠ [] := by
      simp
    obtain ⟨v, vs, hv⟩ := List.exists_cons_of_ne_nil hne
    rw [hv]
    simp only [lyricsSections]
    apply pyJoin_cons_ne_nil
    have hvmem : v ∈ (List.range (n + 1)).map
        (mkVerse (if sentencesOf summary = []
          then [strL "We gather together, sharing the stories that make this family ours."]
          else sentencesOf summary) genre mood (extract_keywords summary) lpv) := by
      rw [hv]; exact List.mem_cons_self v vs
    obtain ⟨i, -, hi⟩ := List.mem_map.mp hvmem
    rw [← hi]
    exact mkVerse_ne_nil _ _ _ _ _ _

theorem generate_lyrics_ne_nil (env : LlmEnv) (summary genre mood : PyStr) (lpv nv : Nat) :
    generate_lyrics env summary genre mood lpv nv ≠ [] := by
  unfold generate_lyrics
  cases call_llmstudio env lyricsSystemPrompt (lyricsUserPrompt summary genre mood lpv nv) with
  | error e => exact fallback_lyrics_ne_nil _ _ _ _ _
  | ok s =>
    by_cases hg : looks_like_valid_lyrics s = true
    · simpa [hg] using valid_lyrics_ne_nil s hg
    · simp only [Bool.not_eq_true] at hg
      simpa [hg] using fallback_lyrics_ne_nil summary genre mood lpv nv

theorem baseName_vocals_ne_nil (outDir id : PyStr) : baseName (vocalsOutPath outDir id) ≠ [] := by
  unfold baseName vocalsOutPath
  intro hc
  rw [List.reverse_eq_nil_iff, List.reverse_append] at hc
  have hrev : (strL "_vocals.wav").reverse = 'v' :: strL "aw.slacov_" := by decide
  rw [hrev, List.cons_append, List.takeWhile_cons] at hc
  simp at hc

theorem audio_url_ne_nil (id : PyStr) : defaultBaseUrl ++ strL "?job_id=" ++ quotePlus id ≠ [] := by
  simp [defaultBaseUrl, strL]

theorem pipelineOkRec_completeOk (id : PyStr) (snap : Snap) (caps : List PyStr)
    (es el : LlmEnv) (hc : caps ≠ []) : completeOk (pipelineOkRec id snap caps es el) := by
  refine ⟨⟨caps, rfl, hc⟩, ⟨_, rfl, summarize_captions_ne_nil es caps⟩,
    ⟨_, rfl, generate_lyrics_ne_nil el _ _ _ _ _⟩, ⟨_, rfl, audio_url_ne_nil id⟩,
    ⟨_, rfl, baseName_vocals_ne_nil _ _⟩⟩

theorem submit_job_ok_inv (store : Store) (id g m : PyStr) (s' : Store) (r : PyStr × Status)
    (h : submit_job store id g m = (s', Except.ok r)) :
    ∃ j, List.lookup id store = some j ∧
      (j.status = Status.created ∨ j.status = Status.failed) ∧
      ¬(j.image_urls = [] ∧ j.image_paths = []) ∧
      s' = setJob store id { j with genre := some g, mood := some m, status := Status.queued } := by
  unfold submit_job at h
  cases hl : List.lookup id store with
  | none =>
    rw [hl] at h
    exact absurd h (by simp)
  | some j =>
    rw [hl] at h
    dsimp only at h
    by_cases h1 : j.status ≠ Status.created ∧ j.status ≠ Status.failed
    · rw [if_pos h1] at h
      exact absurd h (by simp)
    · rw [if_neg h1] at h
      by_cases h2 : j.image_urls = [] ∧ j.image_paths = []
      · rw [if_pos h2] at h
        exact absurd h (by simp)
      · rw [if_neg h2] at h
        have hst : j.status = Status.created ∨ j.status = Status.failed := by
          rcases not_and_or.mp h1 with hx | hx
          · exact Or.inl (not_not.mp hx)
          · exact Or.inr (not_not.mp hx)
        refine ⟨j, rfl, hst, h2, ?_⟩
        exact (Prod.ext_iff.mp h).1.symm

theorem tasks_inj {tasks : List PipeTask} (hnd : (tasks.map PipeTask.id).Nodup)
    {t1 t2 : PipeTask} (h1 : t1 ∈ tasks) (h2 : t2 ∈ tasks) (hid : t1.id = t2.id) : t1 = t2 :=
  List.inj_on_of_nodup_map hnd h1 h2 hid

theorem task_not_mem_erase {tasks : List PipeTask} (hnd : (tasks.map PipeTask.id).Nodup)
    (t : PipeTask) : t ∉ tasks.erase t :=
  fun hmem => (List.Nodup.not_mem_erase (hnd.of_map)) hmem

theorem mem_erase_id_ne {tasks : List PipeTask} (hnd : (tasks.map PipeTask.id).Nodup)
    {t t' : PipeTask} (ht : t ∈ tasks) (h : t' ∈ tasks.erase t) : PipeTask.id t' ≠ PipeTask.id t := by
  intro hid
  have ht' : t' ∈ tasks := List.mem_of_mem_erase h
  have : t' = t := tasks_inj hnd ht' ht hid
  rw [this] at h
  exact task_not_mem_erase hnd t h

theorem erase_map_nodup {tasks : List PipeTask} (hnd : (tasks.map PipeTask.id).Nodup)
    (t : PipeTask) : ((tasks.erase t).map PipeTask.id).Nodup :=
  hnd.sublist ((List.erase_sublist t tasks).map PipeTask.id)

theorem sysInv_step {st st' : SysState} (hi : SysInv st) (hs : Step st st') : SysInv st' := by
  obtain ⟨hnd, hsp, hsta, hcomp⟩ := hi
  cases hs with
  | uploadUrls id urls hfresh hne =>
    refine ⟨hnd, ?_, ?_, ?_⟩
    · intro id0 hmem
      obtain ⟨j, hj, hq, himg⟩ := hsp id0 hmem
      have hne0 : id0 ≠ id := by
        intro he
        rw [he, hfresh] at hj
        exact Option.noConfusion hj
      exact ⟨j, by rw [lookup_setJob, if_neg hne0]; exact hj, hq, himg⟩
    · intro id0 snap0 hmem
      obtain ⟨⟨j, hj, hp⟩, hsrc⟩ := hsta id0 snap0 hmem
      have hne0 : id0 ≠ id := by
        intro he
        rw [he, hfresh] at hj
        exact Option.noConfusion hj
      exact ⟨⟨j, by rw [lookup_setJob, if_neg hne0]; exact hj, hp⟩, hsrc⟩
    · intro id0 j hl hc
      rw [lookup_setJob] at hl
      by_cases he : id0 = id
      · rw [if_pos he] at hl
        injection hl with h
        rw [← h] at hc
        exact absurd hc (by simp [createdRec])
      · rw [if_neg he] at hl
        exact hcomp id0 j hl hc
  | uploadFiles id paths hfresh hne =>
    refine ⟨hnd, ?_, ?_, ?_⟩
    · intro id0 hmem
      obtain ⟨j, hj, hq, himg⟩ := hsp id0 hmem
      have hne0 : id0 ≠ id := by
        intro he
        rw [he, hfresh] at hj
        exact Option.noConfusion hj
      exact ⟨j, by rw [lookup_setJob, if_neg hne0]; exact hj, hq, himg⟩
    · intro id0 snap0 hmem
      obtain ⟨⟨j, hj, hp⟩, hsrc⟩ := hsta id0 snap0 hmem
      have hne0 : id0 ≠ id := by
        intro he
        rw [he, hfresh] at hj
        exact Option.noConfusion hj
      exact ⟨⟨j, by rw [lookup_setJob, if_neg hne0]; exact hj, hp⟩, hsrc⟩
    · intro id0 j hl hc
      rw [lookup_setJob] at hl
      by_cases he : id0 = id
      · rw [if_pos he] at hl
        injection hl with h
        rw [← h] at hc
        exact absurd hc (by simp [createdRec])
      · rw [if_neg he] at hl
        exact hcomp id0 j hl hc
  | submit id genre mood s' r hsub =>
    obtain ⟨j0, hl0, hst0, himg0, hs'⟩ := submit_job_ok_inv _ _ _ _ _ _ hsub
    subst hs'
    have hnotask : ∀ t ∈ st.tasks, PipeTask.id t ≠ id := by
      intro t ht hid
      cases t with
      | spawned i =>
        obtain ⟨j, hj, hq, -⟩ := hsp i ht
        simp only [PipeTask.id] at hid
        rw [hid, hl0] at hj
        injection hj with h
        rw [← h] at hq
        rcases hst0 with hx | hx <;> rw [hq] at hx <;> exact Status.noConfusion hx
      | started i sn =>
        obtain ⟨⟨j, hj, hp⟩, -⟩ := hsta i sn ht
        simp only [PipeTask.id] at hid
        rw [hid, hl0] at hj
        injection hj with h
        rw [← h] at hp
        rcases hst0 with hx | hx <;> rw [hp] at hx <;> exact Status.noConfusion hx
    refine ⟨?_, ?_, ?_, ?_⟩
    · simp only [List.map_cons]
      rw [List.nodup_cons]
      refine ⟨?_, hnd⟩
      intro hmem
      obtain ⟨t, ht, hid⟩ := List.mem_map.mp hmem
      exact hnotask t ht hid
    · intro id0 hmem
      rcases List.mem_cons.mp hmem with heq | hmem0
      · injection heq with h
        subst h
        refine ⟨_, by rw [lookup_setJob, if_pos rfl], rfl, ?_⟩
        intro hap
        exact himg0 (List.append_eq_nil.mp hap)
      · obtain ⟨j, hj, hq, himg⟩ := hsp id0 hmem0
        have hne0 : id0 ≠ id := fun he => hnotask _ hmem0 (by simp [PipeTask.id, he])
        exact ⟨j, by rw [lookup_setJob, if_neg hne0]; exact hj, hq, himg⟩
    · intro id0 snap0 hmem
      rcases List.mem_cons.mp hmem with heq | hmem0
      · exact PipeTask.noConfusion heq
      · obtain ⟨⟨j, hj, hp⟩, hsrc⟩ := hsta id0 snap0 hmem0
        have hne0 : id0 ≠ id := fun he => hnotask _ hmem0 (by simp [PipeTask.id, he])
        exact ⟨⟨j, by rw [lookup_setJob, if_neg hne0]; exact hj, hp⟩, hsrc⟩
    · intro id0 j hl hc
      rw [lookup_setJob] at hl
      by_cases he : id0 = id
      · rw [if_pos he] at hl
        injection hl with h
        rw [← h] at hc
        exact absurd hc (by simp)
      · rw [if_neg he] at hl
        exact hcomp id0 j hl hc
  | startMissing id hmem hlook =>
    obtain ⟨j, hj, -, -⟩ := hsp id hmem
    rw [hlook] at hj
    exact Option.noConfusion hj
  | startNoImages id j hmem hlook himg =>
    obtain ⟨j1, hj1, -, himg1⟩ := hsp id hmem
    rw [hlook] at hj1
    injection hj1 with h
    rw [← h] at himg1
    exact absurd himg himg1
  | startOk id j hmem hlook himg =>
    obtain ⟨j1, hj1, hq1, himg1⟩ := hsp id hmem
    rw [hlook] at hj1
    injection hj1 with h
    subst h
    refine ⟨?_, ?_, ?_, ?_⟩
    · simp only [List.map_cons]
      rw [List.nodup_cons]
      refine ⟨?_, erase_map_nodup hnd _⟩
      intro hmem2
      obtain ⟨t, ht, hid⟩ := List.mem_map.mp hmem2
      exact mem_erase_id_ne hnd hmem ht hid
    · intro id0 hmem0
      rcases List.mem_cons.mp hmem0 with heq | hmem1
      · exact PipeTask.noConfusion heq
      · obtain ⟨j2, hj2, hq2, himg2⟩ := hsp id0 (List.mem_of_mem_erase hmem1)
        have hne0 : id0 ≠ id := mem_erase_id_ne hnd hmem hmem1
        exact ⟨j2, by rw [lookup_setJob, if_neg hne0]; exact hj2, hq2, himg2⟩
    · intro id0 snap0 hmem0
      rcases List.mem_cons.mp hmem0 with heq | hmem1
      · injection heq with h1 h2
        subst h1
        subst h2
        exact ⟨⟨_, by rw [lookup_setJob, if_pos rfl], rfl⟩, himg⟩
      · obtain ⟨⟨j2, hj2, hp2⟩, hsrc2⟩ := hsta id0 snap0 (List.mem_of_mem_erase hmem1)
        have hne0 : id0 ≠ id := mem_erase_id_ne hnd hmem hmem1
        exact ⟨⟨j2, by rw [lookup_setJob, if_neg hne0]; exact hj2, hp2⟩, hsrc2⟩
    · intro id0 j2 hl hc
      rw [lookup_setJob] at hl
      by_cases he : id0 = id
      · rw [if_pos he] at hl
        injection hl with h
        rw [← h] at hc
        exact absurd hc (by simp)
      · rw [if_neg he] at hl
        exact hcomp id0 j2 hl hc
  | finishOk id snap caps es el hmem hlen =>
    obtain ⟨⟨j1, hj1, hp1⟩, hsrc⟩ := hsta id snap hmem
    refine ⟨erase_map_nodup hnd _, ?_, ?_, ?_⟩
    · intro id0 hmem0
      obtain ⟨j2, hj2, hq2, himg2⟩ := hsp id0 (List.mem_of_mem_erase hmem0)
      have hne0 : id0 ≠ id := mem_erase_id_ne hnd hmem hmem0
      exact ⟨j2, by rw [lookup_setJob, if_neg hne0]; exact hj2, hq2, himg2⟩
    · intro id0 snap0 hmem0
      obtain ⟨⟨j2, hj2, hp2⟩, hsrc2⟩ := hsta id0 snap0 (List.mem_of_mem_erase hmem0)
      have hne0 : id0 ≠ id := mem_erase_id_ne hnd hmem hmem0
      exact ⟨⟨j2, by rw [lookup_setJob, if_neg hne0]; exact hj2, hp2⟩, hsrc2⟩
    · intro id0 j2 hl hc
      rw [lookup_setJob] at hl
      by_cases he : id0 = id
      · rw [if_pos he] at hl
        injection hl with h
        rw [← h]
        apply pipelineOkRec_completeOk
        intro hcaps
        rw [hcaps] at hlen
        exact hsrc (List.eq_nil_of_length_eq_zero hlen.symm)
      · rw [if_neg he] at hl
        exact hcomp id0 j2 hl hc
  | finishFail id snap msg hmem =>
    refine ⟨erase_map_nodup hnd _, ?_, ?_, ?_⟩
    · intro id0 hmem0
      obtain ⟨j2, hj2, hq2, himg2⟩ := hsp id0 (List.mem_of_mem_erase hmem0)
      have hne0 : id0 ≠ id := mem_erase_id_ne hnd hmem hmem0
      exact ⟨j2, by rw [lookup_setJob, if_neg hne0]; exact hj2, hq2, himg2⟩
    · intro id0 snap0 hmem0
      obtain ⟨⟨j2, hj2, hp2⟩, hsrc2⟩ := hsta id0 snap0 (List.mem_of_mem_erase hmem0)
      have hne0 : id0 ≠ id := mem_erase_id_ne hnd hmem hmem0
      exact ⟨⟨j2, by rw [lookup_setJob, if_neg hne0]; exact hj2, hp2⟩, hsrc2⟩
    · intro id0 j2 hl hc
      rw [lookup_setJob] at hl
      by_cases he : id0 = id
      · rw [if_pos he] at hl
        injection hl with h
        rw [← h] at hc
        exact absurd hc (by simp [failedRec])
      · rw [if_neg he] at hl
        exact hcomp id0 j2 hl hc

theorem reachable_sysInv {st : SysState} (h : Reachable st) : SysInv st := by
  induction h with
  | init =>
    refine ⟨List.nodup_nil, ?_, ?_, ?_⟩
    · intro id hmem
      exact absurd hmem (List.not_mem_nil _)
    · intro id snap hmem
      exact absurd hmem (List.not_mem_nil _)
    · intro id j hl hc
      exact absurd hl (by simp)
  | step hr hs ih => exact sysInv_step ih hs

/-- C1: in every reachable system state, a job record whose status is
`complete` carries captions, summary, lyrics, audio URL and audio
filename, all present and non-empty. -/
theorem complete_job_fields (st : SysState) (hr : Reachable st) (id : PyStr) (j : JobRec)
    (hl : List.lookup id st.store = some j) (hc : j.status = Status.complete) : completeOk j :=
  (reachable_sysInv hr).2.2.2 id j hl hc

/-- C2: along any step between reachable system states, a stored job's
status either stays unchanged or moves along one of the five permitted
state-machine edges (`created→queued`, `queued→processing`,
`processing→complete`, `processing→failed`, `failed→queued`); no other
edge ever occurs and no edge skips `processing`. -/
theorem status_changes_along_edges (st st' : SysState) (hr : Reachable st) (hs : Step st st')
    (id : PyStr) (j j' : JobRec) (h1 : List.lookup id st.store = some j)
    (h2 : List.lookup id st'.store = some j') (hne : j.status ≠ j'.status) :
    allowedEdge j.status j'.status := by
  obtain ⟨hnd, hsp, hsta, hcomp⟩ := reachable_sysInv hr
  cases hs with
  | uploadUrls id1 urls hfresh hne1 =>
    rw [lookup_setJob] at h2
    by_cases he : id = id1
    · rw [he, hfresh] at h1
      exact Option.noConfusion h1
    · rw [if_neg he, h1] at h2
      injection h2 with h
      rw [h] at hne
      exact absurd rfl hne
  | uploadFiles id1 paths hfresh hne1 =>
    rw [lookup_setJob] at h2
    by_cases he : id = id1
    · rw [he, hfresh] at h1
      exact Option.noConfusion h1
    · rw [if_neg he, h1] at h2
      injection h2 with h
      rw [h] at hne
      exact absurd rfl hne
  | submit id1 genre mood s' r hsub =>
    obtain ⟨j0, hl0, hst0, himg0, hs'⟩ := submit_job_ok_inv _ _ _ _ _ _ hsub
    subst hs'
    rw [lookup_setJob] at h2
    by_cases he : id = id1
    · rw [if_pos he] at h2
      rw [he, hl0] at h1
      injection h1 with h
      injection h2 with h2'
      rw [← h2']
      show allowedEdge j.status Status.queued
      rw [← h]
      rcases hst0 with hx | hx
      · rw [hx]
        exact Or.inl ⟨rfl, rfl⟩
      · rw [hx]
        exact Or.inr (Or.inr (Or.inr (Or.inr ⟨rfl, rfl⟩)))
    · rw [if_neg he, h1] at h2
      injection h2 with h
      rw [h] at hne
      exact absurd rfl hne
  | startMissing id1 hmem hlook =>
    rw [h1] at h2
    injection h2 with h
    rw [h] at hne
    exact absurd rfl hne
  | startNoImages id1 jx hmem hlook himg =>
    obtain ⟨j1, hj1, -, himg1⟩ := hsp id1 hmem
    rw [hlook] at hj1
    injection hj1 with h
    rw [← h] at himg1
    exact absurd himg himg1
  | startOk id1 jx hmem hlook himg =>
    obtain ⟨j1, hj1, hq1, -⟩ := hsp id1 hmem
    rw [hlook] at hj1
    injection hj1 with hx
    rw [lookup_setJob] at h2
    by_cases he : id = id1
    · rw [if_pos he] at h2
      rw [he, hlook] at h1
      injection h1 with h
      injection h2 with h2'
      rw [← h2']
      show allowedEdge j.status Status.processing
      rw [← h, hx, hq1]
      exact Or.inr (Or.inl ⟨rfl, rfl⟩)
    · rw [if_neg he, h1] at h2
      injection h2 with h
      rw [h] at hne
      exact absurd rfl hne
  | finishOk id1 snap caps es el hmem hlen =>
    obtain ⟨⟨j1, hj1, hp1⟩, -⟩ := hsta id1 snap hmem
    rw [lookup_setJob] at h2
    by_cases he : id = id1
    · rw [if_pos he] at h2
      rw [he, hj1] at h1
      injection h1 with h
      injection h2 with h2'
      rw [← h2']
      show allowedEdge j.status Status.complete
      rw [← h, hp1]
      exact Or.inr (Or.inr (Or.inl ⟨rfl, rfl⟩))
    · rw [if_neg he, h1] at h2
      injection h2 with h
      rw [h] at hne
      exact absurd rfl hne
  | finishFail id1 snap msg hmem =>
    obtain ⟨⟨j1, hj1, hp1⟩, -⟩ := hsta id1 snap hmem
    rw [lookup_setJob] at h2
    by_cases he : id = id1
    · rw [if_pos he] at h2
      rw [he, hj1] at h1
      injection h1 with h
      injection h2 with h2'
      rw [← h2']
      show allowedEdge j.status Status.failed
      rw [← h, hp1]
      exact Or.inr (Or.inr (Or.inr (Or.inl ⟨rfl, rfl⟩)))
    · rw [if_neg he, h1] at h2
      injection h2 with h
      rw [h] at hne
      exact absurd rfl hne

theorem status_changes_along_edges_witness :
    (createdRec (strL "j") [strL "u"] []).status ≠
      ({ createdRec (strL "j") [strL "u"] [] with
          genre := some (strL "pop"), mood := some (strL "calm"),
          status := Status.queued } : JobRec).status ∧
    allowedEdge (createdRec (strL "j") [strL "u"] []).status
      ({ createdRec (strL "j") [strL "u"] [] with
          genre := some (strL "pop"), mood := some (strL "calm"),
          status := Status.queued } : JobRec).status :=
  ⟨by decide,
    status_changes_along_edges
      ⟨setJob ([] : Store) (strL "j") (createdRec (strL "j") [strL "u"] []), []⟩
      ⟨setJob (setJob ([] : Store) (strL "j") (createdRec (strL "j") [strL "u"] []))
          (strL "j")
          { createdRec (strL "j") [strL "u"] [] with
              genre := some (strL "pop"), mood := some (strL "calm"),
              status := Status.queued },
        [PipeTask.spawned (strL "j")]⟩
      (Reachable.step Reachable.init (Step.uploadUrls ⟨[], []⟩ (strL "j") [strL "u"] rfl (by decide)))
      (Step.submit _ (strL "j") (strL "pop") (strL "calm") _ (strL "j", Status.queued) rfl)
      (strL "j") (createdRec (strL "j") [strL "u"] [])
      { createdRec (strL "j") [strL "u"] [] with
          genre := some (strL "pop"), mood := some (strL "calm"), status := Status.queued }
      rfl rfl (by decide)⟩

theorem complete_job_fields_witness :
    completeOk (pipelineOkRec (strL "j")
      { sources := [strL "u"], genre := strL "pop", mood := strL "calm" }
      [strL "cap"] { baseUrl := none, http := LlmHttp.reqFail }
      { baseUrl := none, http := LlmHttp.reqFail }) :=
  complete_job_fields _
    (Reachable.step (Reachable.step (Reachable.step (Reachable.step Reachable.init
      (Step.uploadUrls ⟨[], []⟩ (strL "j") [strL "u"] rfl (by decide)))
      (Step.submit _ (strL "j") (strL "pop") (strL "calm") _ (strL "j", Status.queued) rfl))
      (Step.startOk _ (strL "j")
        { createdRec (strL "j") [strL "u"] [] with
            genre := some (strL "pop"), mood := some (strL "calm"), status := Status.queued }
        (List.mem_cons_self _ _) rfl (by decide)))
      (Step.finishOk _ (strL "j")
        { sources := [strL "u"], genre := strL "pop", mood := strL "calm" }
        [strL "cap"] { baseUrl := none, http := LlmHttp.reqFail }
        { baseUrl := none, http := LlmHttp.reqFail }
        (List.mem_cons_self _ _) rfl))
    (strL "j") _ rfl rfl

/-- C3: after any pipeline failure the stored record is
`{"job_id", "status": "failed", "error"}`, which has dropped the job's
image sources; re-submitting such a job therefore always fails with the
no-images 400 error instead of transitioning back to `queued` — the
documented `failed → queued` retry edge is unreachable.  The first part
exhibits a reachable state holding such a record (upload with one image
URL, submit, pipeline start, stage failure); the second evaluates the
submit endpoint on every store holding it. -/
theorem resubmit_failed_rejected :
    Reachable
      ⟨[(strL "j", failedRec (strL "j") (strL "boom")),
        (strL "j", { createdRec (strL "j") [strL "u"] [] with
            genre := some (strL "pop"), mood := some (strL "calm"),
            status := Status.processing }),
        (strL "j", { createdRec (strL "j") [strL "u"] [] with
            genre := some (strL "pop"), mood := some (strL "calm"),
            status := Status.queued }),
        (strL "j", createdRec (strL "j") [strL "u"] [])], []⟩ ∧
    List.lookup (strL "j")
        [(strL "j", failedRec (strL "j") (strL "boom")),
         (strL "j", { createdRec (strL "j") [strL "u"] [] with
             genre := some (strL "pop"), mood := some (strL "calm"),
             status := Status.processing }),
         (strL "j", { createdRec (strL "j") [strL "u"] [] with
             genre := some (strL "pop"), mood := some (strL "calm"),
             status := Status.queued }),
         (strL "j", createdRec (strL "j") [strL "u"] [])] =
      some (failedRec (strL "j") (strL "boom")) ∧
    (failedRec (strL "j") (strL "boom")).status = Status.failed ∧
    submit_job
        [(strL "j", failedRec (strL "j") (strL "boom")),
         (strL "j", { createdRec (strL "j") [strL "u"] [] with
             genre := some (strL "pop"), mood := some (strL "calm"),
             status := Status.processing }),
         (strL "j", { createdRec (strL "j") [strL "u"] [] with
             genre := some (strL "pop"), mood := some (strL "calm"),
             status := Status.queued }),
         (strL "j", createdRec (strL "j") [strL "u"] [])]
        (strL "j") (strL "pop") (strL "calm") =
      ([(strL "j", failedRec (strL "j") (strL "boom")),
        (strL "j", { createdRec (strL "j") [strL "u"] [] with
            genre := some (strL "pop"), mood := some (strL "calm"),
            status := Status.processing }),
        (strL "j", { createdRec (strL "j") [strL "u"] [] with
            genre := some (strL "pop"), mood := some (strL "calm"),
            status := Status.queued }),
        (strL "j", createdRec (strL "j") [strL "u"] [])],
        Except.error SubmitErr.noImages) := by
  refine ⟨?_, rfl, rfl, rfl⟩
  exact Reachable.step (Reachable.step (Reachable.step (Reachable.step Reachable.init
    (Step.uploadUrls ⟨[], []⟩ (strL "j") [strL "u"] rfl (by decide)))
    (Step.submit _ (strL "j") (strL "pop") (strL "calm") _ (strL "j", Status.queued) rfl))
    (Step.startOk _ (strL "j")
      { createdRec (strL "j") [strL "u"] [] with
          genre := some (strL "pop"), mood := some (strL "calm"), status := Status.queued }
      (List.mem_cons_self _ _) rfl (by decide)))
    (Step.finishFail _ (strL "j")
      { sources := [strL "u"], genre := strL "pop", mood := strL "calm" }
      (strL "boom") (List.mem_cons_self _ _))

/-!  ### Auxiliary lemmas for the fallback-lyrics claim  -/

theorem toNat_charOfNat (n : Nat) (h : n < 55296) : (Char.ofNat n).toNat = n := by
  have hv : n.isValidChar := Or.inl h
  simp [Char.ofNat, hv, Char.ofNatAux, Char.toNat, UInt32.toNat]

theorem wcGo_append_ws (w : Char) (hw : pyWs w = true) :
    ∀ (a b : PyStr) (inw : Bool), wcGo (a ++ w :: b) inw = wcGo a inw + wcGo b false := by
  intro a
  induction a with
  | nil =>
    intro b inw
    simp [wcGo, hw]
  | cons c cs ih =>
    intro b inw
    show (if pyWs c then wcGo (cs ++ w :: b) false
        else (if inw then 0 else 1) + wcGo (cs ++ w :: b) true) =
      (if pyWs c then wcGo cs false else (if inw then 0 else 1) + wcGo cs true) + wcGo b false
    by_cases hcy : pyWs c = true
    · rw [if_pos hcy, if_pos hcy, ih b false]
    · rw [if_neg hcy, if_neg hcy, ih b true]
      omega

theorem wcGo_no_ws (l : PyStr) (hl : l ≠ []) (h : ∀ c ∈ l, pyWs c = false) :
    wcGo l false = 1 := by
  have haux : ∀ (m : PyStr), (∀ c ∈ m, pyWs c = false) → wcGo m true = 0 := by
    intro m
    induction m with
    | nil => intro _; rfl
    | cons c cs ih =>
      intro hm
      simp only [wcGo, hm c (List.mem_cons_self c cs), if_false]
      simpa using ih (fun x hx => hm x (List.mem_cons_of_mem c hx))
  cases l with
  | nil => exact absurd rfl hl
  | cons c cs =>
    simp only [wcGo, h c (List.mem_cons_self c cs), if_false]
    rw [haux cs (fun x hx => h x (List.mem_cons_of_mem c hx))]
    simp

theorem countOccur_nil (p : PyStr) (hp : p ≠ []) : countOccur p [] = 0 := by
  simp [countOccur, hp]

theorem isPrefixOf_append_cons (c : Char) (b : PyStr) :
    ∀ (a p : PyStr), p ≠ [] → c ∉ p → p.isPrefixOf (a ++ c :: b) = p.isPrefixOf a := by
  intro a
  induction a with
  | nil =>
    intro p hp hc
    cases p with
    | nil => exact absurd rfl hp
    | cons ph pt =>
      have hph : (ph == c) = false := by
        refine beq_false_of_ne ?_
        intro he
        exact hc (he ▸ List.mem_cons_self ph pt)
      simp [List.isPrefixOf, hph]
  | cons x a' ih =>
    intro p hp hc
    cases p with
    | nil => exact absurd rfl hp
    | cons ph pt =>
      cases pt with
      | nil => simp [List.isPrefixOf]
      | cons q qt =>
        have hrec : (q :: qt).isPrefixOf (a' ++ c :: b) = (q :: qt).isPrefixOf a' :=
          ih (q :: qt) (by simp) (fun hm => hc (List.mem_cons_of_mem ph hm))
        simp [List.isPrefixOf, hrec]

theorem countOccur_append_cons (p : PyStr) (c : Char) (hp : p ≠ []) (hc : c ∉ p) :
    ∀ (a b : PyStr), countOccur p (a ++ c :: b) = countOccur p a + countOccur p b := by
  intro a
  induction a with
  | nil =>
    intro b
    have h1 : p.isPrefixOf (c :: b) = p.isPrefixOf ([] : PyStr) :=
      isPrefixOf_append_cons c b [] p hp hc
    have h2 : p.isPrefixOf ([] : PyStr) = false := by
      cases p with
      | nil => exact absurd rfl hp
      | cons ph pt => rfl
    rw [List.nil_append]
    calc countOccur p (c :: b)
        = (if p.isPrefixOf (c :: b) then 1 else 0) + countOccur p b := rfl
      _ = countOccur p [] + countOccur p b := by
          rw [h1, h2, countOccur_nil p hp]
          simp
  | cons x a' ih =>
    intro b
    have h1 : p.isPrefixOf ((x :: a') ++ c :: b) = p.isPrefixOf (x :: a') :=
      isPrefixOf_append_cons c b (x :: a') p hp hc
    calc countOccur p ((x :: a') ++ c :: b)
        = (if p.isPrefixOf ((x :: a') ++ c :: b) then 1 else 0) +
            countOccur p (a' ++ c :: b) := rfl
      _ = (if p.isPrefixOf (x :: a') then 1 else 0) +
            (countOccur p a' + countOccur p b) := by rw [h1, ih b]
      _ = countOccur p (x :: a') + countOccur p b := by
          show _ = (if p.isPrefixOf (x :: a') then 1 else 0) + countOccur p a' +
            countOccur p b
          omega

theorem countOccur_ne_zero_sub (p : PyStr) :
    ∀ l : PyStr, countOccur p l ≠ 0 → p <:+: l := by
  intro l
  induction l with
  | nil =>
    intro h
    by_cases hp : p = []
    · rw [hp]
    · rw [countOccur_nil p hp] at h
      exact absurd rfl h
  | cons c cs ih =>
    intro h
    by_cases hpre : p.isPrefixOf (c :: cs) = true
    · exact (List.isPrefixOf_iff_prefix.mp hpre).isInfix
    · have hh : countOccur p cs ≠ 0 := by
        have hunf : countOccur p (c :: cs) =
            (if p.isPrefixOf (c :: cs) then 1 else 0) + countOccur p cs := rfl
        rw [Bool.not_eq_true] at hpre
        rw [hunf, hpre] at h
        simpa using h
      exact (ih hh).trans (List.infix_cons_iff.mpr (Or.inr (List.infix_refl cs)))

theorem countOccur_eq_zero_of_not_infix (p l : PyStr) (h : ¬ p <:+: l) : countOccur p l = 0 :=
  by_contra fun hc => h (countOccur_ne_zero_sub p l hc)

theorem countOccur_eq_zero_of_mem_absent (p l : PyStr) (a : Char) (ha : a ∈ p) (hl : a ∉ l) :
    countOccur p l = 0 := by
  refine countOccur_eq_zero_of_not_infix p l ?_
  intro hinf
  exact hl (hinf.sublist.subset ha)

theorem countOccur_self_append (h : Char) (t r : PyStr) (hm : h ∉ t ++ r) :
    countOccur (h :: t) ((h :: t) ++ r) = 1 := by
  have hpre : (h :: t).isPrefixOf ((h :: t) ++ r) = true :=
    List.isPrefixOf_iff_prefix.mpr ⟨r, rfl⟩
  have hzero : countOccur (h :: t) (t ++ r) = 0 :=
    countOccur_eq_zero_of_mem_absent _ _ h (List.mem_cons_self h t) hm
  calc countOccur (h :: t) ((h :: t) ++ r)
      = (if (h :: t).isPrefixOf ((h :: t) ++ r) then 1 else 0) +
          countOccur (h :: t) (t ++ r) := rfl
    _ = 1 := by rw [hpre, hzero]; simp

theorem hasSub_iff_sub (p : PyStr) : ∀ l : PyStr, hasSub p l = true ↔ p <:+: l := by
  intro l
  induction l with
  | nil => simp [hasSub, List.isPrefixOf_iff_prefix, List.prefix_nil, List.infix_nil]
  | cons c cs ih =>
    simp only [hasSub, Bool.or_eq_true, List.isPrefixOf_iff_prefix, ih]
    exact (List.infix_cons_iff).symm

theorem countOccur_pyJoin_sep (p : PyStr) (s1 s2 : Char) (hp : p ≠ [])
    (h1 : s1 ∉ p) (h2 : s2 ∉ p) :
    ∀ l : List PyStr, countOccur p (pyJoin [s1, s2] l) = (l.map (countOccur p)).sum := by
  intro l
  induction l with
  | nil => simp [pyJoin, countOccur_nil p hp]
  | cons x xs ih =>
    cases xs with
    | nil => simp [pyJoin]
    | cons y ys =>
      have hassoc : pyJoin [s1, s2] (x :: y :: ys) =
          x ++ s1 :: (s2 :: pyJoin [s1, s2] (y :: ys)) := by
        simp [pyJoin]
      rw [hassoc, countOccur_append_cons p s1 hp h1]
      have hview : countOccur p (s2 :: pyJoin [s1, s2] (y :: ys)) =
          countOccur p ([] ++ s2 :: pyJoin [s1, s2] (y :: ys)) := rfl
      rw [hview, countOccur_append_cons p s2 hp h2, countOccur_nil p hp, ih]
      simp

theorem countOccur_pyJoin_nl (p : PyStr) (s1 : Char) (hp : p ≠ []) (h1 : s1 ∉ p) :
    ∀ l : List PyStr, countOccur p (pyJoin [s1] l) = (l.map (countOccur p)).sum := by
  intro l
  induction l with
  | nil => simp [pyJoin, countOccur_nil p hp]
  | cons x xs ih =>
    cases xs with
    | nil => simp [pyJoin]
    | cons y ys =>
      have hassoc : pyJoin [s1] (x :: y :: ys) = x ++ s1 :: pyJoin [s1] (y :: ys) := by
        simp [pyJoin]
      rw [hassoc, countOccur_append_cons p s1 hp h1, ih]
      simp

theorem pyLowerC_toNat (c : Char) :
    (pyLowerC c).toNat = c.toNat + 32 ∧ 65 ≤ c.toNat ∧ c.toNat ≤ 90 ∨
    pyLowerC c = c ∧ ¬(65 ≤ c.toNat ∧ c.toNat ≤ 90) := by
  unfold pyLowerC
  by_cases h : 65 ≤ c.toNat ∧ c.toNat ≤ 90
  · rw [if_pos h]
    exact Or.inl ⟨toNat_charOfNat _ (by omega), h⟩
  · rw [if_neg h]
    exact Or.inr ⟨rfl, h⟩

theorem pyLowerC_ne_V (c : Char) : pyLowerC c ≠ 'V' := by
  intro he
  have hV : ('V' : Char).toNat = 86 := rfl
  rcases pyLowerC_toNat c with ⟨h1, h2, h3⟩ | ⟨h1, h2⟩
  · rw [he, hV] at h1
    omega
  · rw [h1] at he
    rw [he] at h2
    rw [hV] at h2
    omega

theorem pyLowerC_allowed (c : Char) (h : allowedAscii c = true) :
    allowedAscii (pyLowerC c) = true := by
  simp only [allowedAscii, Bool.or_eq_true, decide_eq_true_eq, Bool.and_eq_true] at h ⊢
  rcases pyLowerC_toNat c with ⟨h1, h2, h3⟩ | ⟨h1, -⟩
  · rw [h1]
    omega
  · rw [h1]
    exact h

theorem pyUpperC_allowed (c : Char) (h : allowedAscii c = true) :
    allowedAscii (pyUpperC c) = true := by
  unfold pyUpperC
  by_cases hc : 97 ≤ c.toNat ∧ c.toNat ≤ 122
  · rw [if_pos hc]
    have ht : (Char.ofNat (c.toNat - 32)).toNat = c.toNat - 32 := toNat_charOfNat _ (by omega)
    simp only [allowedAscii, Bool.or_eq_true, decide_eq_true_eq, Bool.and_eq_true, ht]
    omega
  · rw [if_neg hc]
    exact h

theorem pyLower_no_V (m : PyStr) : 'V' ∉ pyLower m := by
  intro hm
  obtain ⟨c, -, hc⟩ := List.mem_map.mp hm
  exact pyLowerC_ne_V c hc

theorem pyCapitalize_V_head (m : PyStr) (k : Nat)
    (h : (pyCapitalize m)[k]? = some 'V') : k = 0 := by
  cases m with
  | nil =>
    rw [show pyCapitalize [] = ([] : PyStr) from rfl] at h
    simp at h
  | cons c cs =>
    cases k with
    | zero => rfl
    | succ k =>
      exfalso
      simp only [pyCapitalize, List.getElem?_cons_succ] at h
      rw [List.getElem?_map] at h
      cases hcs : cs[k]? with
      | none => rw [hcs] at h; simp at h
      | some c' =>
        rw [hcs] at h
        have h2 : pyLowerC c' = 'V' := by simpa using h
        exact pyLowerC_ne_V c' h2

theorem prefix_infix_trans (x p l : PyStr) (h1 : x <+: p) (h2 : p <:+: l) : x <:+: l := by
  obtain ⟨u, v, huv⟩ := h2
  obtain ⟨w, hw⟩ := h1
  exact ⟨u, w ++ v, by rw [← huv, ← hw]; simp⟩

theorem countOccur_eq_zero_pairV (p l : PyStr) (rest : PyStr) (hps : p = '[' :: 'V' :: rest)
    (hl : ¬ ('[' :: 'V' :: ([] : PyStr)) <:+: l) : countOccur p l = 0 := by
  refine countOccur_eq_zero_of_not_infix p l ?_
  intro hinf
  refine hl (prefix_infix_trans _ _ _ ?_ hinf)
  rw [hps]
  exact ⟨rest, rfl⟩

theorem pair_not_infix_append (x y : PyStr)
    (hx : ∀ k, x[k]? = some 'V' → k = 0) (hy : 'V' ∉ y) :
    ¬ ('[' :: 'V' :: ([] : PyStr)) <:+: (x ++ y) := by
  rintro ⟨s, t, hst⟩
  have hV : (x ++ y)[s.length + 1]? = some 'V' := by
    rw [← hst, List.getElem?_append]
    rw [if_pos (by simp)]
    rw [List.getElem?_append]
    rw [if_neg (by omega)]
    simp
  by_cases hlt : s.length + 1 < x.length
  · rw [List.getElem?_append, if_pos hlt] at hV
    have := hx (s.length + 1) hV
    omega
  · rw [List.getElem?_append, if_neg hlt] at hV
    exact hy (List.getElem?_mem hV)

theorem sentPieces_structure :
    ∀ (l : PyStr) (prev : Option Char),
      ∃ h t, sentPieces prev l = h :: t ∧ h <+: l ∧ ∀ p ∈ t, p <:+: l := by
  intro l
  induction l with
  | nil =>
    intro prev
    exact ⟨[], [], rfl, List.nil_prefix, fun p hp => absurd hp (List.not_mem_nil p)⟩
  | cons c cs ih =>
    intro prev
    obtain ⟨h', t', heq, hpre, hinf⟩ := ih (some c)
    by_cases hsplit : (pyWs c && isPunct prev) = true
    · refine ⟨[], sentPieces (some c) cs, ?_, List.nil_prefix, ?_⟩
      · show sentPieces prev (c :: cs) = [] :: sentPieces (some c) cs
        rw [sentPieces]
        rw [if_pos hsplit]
      · intro p hp
        rw [heq] at hp
        rcases List.mem_cons.mp hp with hone | hrest
        · rw [hone]
          exact hpre.isInfix.trans (List.infix_cons_iff.mpr (Or.inr (List.infix_refl cs)))
        · exact (hinf p hrest).trans (List.infix_cons_iff.mpr (Or.inr (List.infix_refl cs)))
    · refine ⟨c :: h', t', ?_, ?_, ?_⟩
      · show sentPieces prev (c :: cs) = (c :: h') :: t'
        rw [sentPieces]
        rw [if_neg hsplit, heq]
      · exact (List.prefix_cons_inj c).mpr hpre
      · intro p hp
        exact (hinf p hp).trans (List.infix_cons_iff.mpr (Or.inr (List.infix_refl cs)))

theorem sentPieces_mem_within (l : PyStr) (prev : Option Char) (p : PyStr)
    (hp : p ∈ sentPieces prev l) : p <:+: l := by
  obtain ⟨h, t, heq, hpre, hinf⟩ := sentPieces_structure l prev
  rw [heq] at hp
  rcases List.mem_cons.mp hp with hone | hrest
  · rw [hone]
    exact hpre.isInfix
  · exact hinf p hrest

theorem pyStripWs_within (l : PyStr) : pyStripWs l <:+: l := by
  unfold pyStripWs
  have h2 : (((l.dropWhile pyWs).reverse.dropWhile pyWs).reverse : PyStr) <+:
      ((l.dropWhile pyWs).reverse).reverse :=
    List.reverse_prefix.mpr (List.dropWhile_suffix pyWs)
  rw [List.reverse_reverse] at h2
  exact h2.isInfix.trans (List.dropWhile_suffix pyWs).isInfix

theorem dropTrailingDots_within (l : PyStr) : dropTrailingDots l <:+: l := by
  unfold dropTrailingDots
  have h2 : ((l.reverse.dropWhile (fun c => c == '.')).reverse : PyStr) <+:
      (l.reverse).reverse :=
    List.reverse_prefix.mpr (List.dropWhile_suffix _)
  rw [List.reverse_reverse] at h2
  exact h2.isInfix

theorem sentencesOf_mem_within (summary : PyStr) (s : PyStr) (hs : s ∈ sentencesOf summary) :
    s <:+: summary := by
  unfold sentencesOf at hs
  have hs2 := List.mem_of_mem_filter hs
  obtain ⟨p, hp, hps⟩ := List.mem_map.mp hs2
  rw [← hps]
  exact ((pyStripWs_within p).trans (sentPieces_mem_within _ _ _ hp)).trans (pyStripWs_within summary)

theorem kwTokensAux_chars :
    ∀ (fuel : Nat) (l t : PyStr), t ∈ kwTokensAux fuel l → ∀ c ∈ t, isKwCont c = true := by
  intro fuel
  induction fuel with
  | zero =>
    intro l t ht
    exact absurd ht (List.not_mem_nil t)
  | succ fuel ih =>
    intro l t ht
    cases l with
    | nil => exact absurd ht (List.not_mem_nil t)
    | cons c cs =>
      by_cases hc : pyIsAlpha c = true
      · rw [show kwTokensAux (fuel + 1) (c :: cs) =
            (c :: cs.takeWhile isKwCont) :: kwTokensAux fuel (cs.dropWhile isKwCont) by
          rw [kwTokensAux]; rw [if_pos hc]] at ht
        rcases List.mem_cons.mp ht with hone | hrest
        · intro x hx
          rw [hone] at hx
          rcases List.mem_cons.mp hx with hxc | hxt
          · rw [hxc]
            simp [isKwCont, hc]
          · exact List.mem_takeWhile_imp hxt
        · exact ih (cs.dropWhile isKwCont) t hrest
      · rw [show kwTokensAux (fuel + 1) (c :: cs) = kwTokensAux fuel cs by
          rw [kwTokensAux]; rw [if_neg hc]] at ht
        exact ih cs t ht

theorem buildKeywords_mem :
    ∀ (ts acc : List PyStr) (k : PyStr), k ∈ buildKeywords ts acc → k ∈ acc ∨ k ∈ ts := by
  intro ts
  induction ts with
  | nil =>
    intro acc k hk
    exact Or.inl hk
  | cons t ts ih =>
    intro acc k hk
    rw [buildKeywords] at hk
    by_cases h1 : (t.length < 3 || stopwords.contains (pyLower t)) = true
    · rw [if_pos h1] at hk
      rcases ih acc k hk with h | h
      · exact Or.inl h
      · exact Or.inr (List.mem_cons_of_mem t h)
    · rw [if_neg h1] at hk
      by_cases h2 : 12 ≤ (if acc.contains t then acc else acc ++ [t]).length
      · rw [if_pos h2] at hk
        by_cases h3 : acc.contains t = true
        · rw [if_pos h3] at hk
          exact Or.inl hk
        · rw [if_neg h3] at hk
          rcases List.mem_append.mp hk with h | h
          · exact Or.inl h
          · rw [List.mem_singleton.mp h]
            exact Or.inr (List.mem_cons_self t ts)
      · rw [if_neg h2] at hk
        by_cases h3 : acc.contains t = true
        · rw [if_pos h3] at hk
          rcases ih acc k hk with h | h
          · exact Or.inl h
          · exact Or.inr (List.mem_cons_of_mem t h)
        · rw [if_neg h3] at hk
          rcases ih (acc ++ [t]) k hk with h | h
          · rcases List.mem_append.mp h with h | h
            · exact Or.inl h
            · rw [List.mem_singleton.mp h]
              exact Or.inr (List.mem_cons_self t ts)
          · exact Or.inr (List.mem_cons_of_mem t h)

theorem extract_keywords_chars (summary k : PyStr) (hk : k ∈ extract_keywords summary) :
    ∀ c ∈ k, isKwCont c = true := by
  unfold extract_keywords at hk
  rcases buildKeywords_mem _ _ _ hk with h | h
  · exact absurd h (List.not_mem_nil k)
  · exact kwTokensAux_chars _ _ k h

theorem isKwCont_allowed (c : Char) (h : isKwCont c = true) : allowedAscii c = true := by
  simp only [isKwCont, pyIsAlpha, Bool.or_eq_true, Bool.and_eq_true, decide_eq_true_eq] at h
  simp only [allowedAscii, Bool.or_eq_true, Bool.and_eq_true, decide_eq_true_eq]
  omega

theorem isKwCont_not_bracket (c : Char) (h : isKwCont c = true) : c.toNat ≠ 91 := by
  simp only [isKwCont, pyIsAlpha, Bool.or_eq_true, Bool.and_eq_true, decide_eq_true_eq] at h
  omega

theorem digitCh_range (d : Nat) : 48 ≤ (digitCh d).toNat ∧ (digitCh d).toNat ≤ 57 := by
  unfold digitCh
  split <;> exact ⟨by decide, by decide⟩

theorem natCharsAux_range :
    ∀ (fuel n : Nat), ∀ c ∈ natCharsAux fuel n, 48 ≤ c.toNat ∧ c.toNat ≤ 57 := by
  intro fuel
  induction fuel with
  | zero =>
    intro n c hc
    exact absurd hc (List.not_mem_nil c)
  | succ fuel ih =>
    intro n c hc
    rw [natCharsAux] at hc
    by_cases h : n < 10
    · rw [if_pos h] at hc
      rw [List.mem_singleton.mp hc]
      exact digitCh_range n
    · rw [if_neg h] at hc
      rcases List.mem_append.mp hc with h1 | h1
      · exact ih (n / 10) c h1
      · rw [List.mem_singleton.mp h1]
        exact digitCh_range (n % 10)

theorem natChars_range (n : Nat) : ∀ c ∈ natChars n, 48 ≤ c.toNat ∧ c.toNat ≤ 57 :=
  natCharsAux_range (n + 1) n

theorem natChars_ne_nil (n : Nat) : natChars n ≠ [] := by
  unfold natChars natCharsAux
  by_cases h : n < 10
  · rw [if_pos h]
    simp
  · rw [if_neg h]
    simp

theorem make_fallback_lines_of_length (base : List PyStr) (t : Nat) (kws : List PyStr)
    (mood : PyStr) (hb : base.length = t) : make_fallback_lines base t kws mood = base := by
  simp only [make_fallback_lines]
  rw [← hb, List.take_length, Nat.sub_self]
  show (base ++ ([] : List PyStr)).take base.length = base
  rw [List.append_nil, List.take_length]

theorem mem_pyJoin (sep : PyStr) :
    ∀ (l : List PyStr) (c : Char), c ∈ pyJoin sep l → c ∈ sep ∨ ∃ s ∈ l, c ∈ s := by
  intro l
  induction l with
  | nil =>
    intro c hc
    exact absurd hc (List.not_mem_nil c)
  | cons x xs ih =>
    intro c hc
    cases xs with
    | nil => exact Or.inr ⟨x, List.mem_singleton_self x, hc⟩
    | cons y ys =>
      rw [show pyJoin sep (x :: y :: ys) = x ++ sep ++ pyJoin sep (y :: ys) from rfl] at hc
      rcases List.mem_append.mp hc with h1 | h1
      · rcases List.mem_append.mp h1 with h2 | h2
        · exact Or.inr ⟨x, List.mem_cons_self x _, h2⟩
        · exact Or.inl h2
      · rcases ih c h1 with h2 | ⟨s, hs, hcs⟩
        · exact Or.inl h2
        · exact Or.inr ⟨s, List.mem_cons_of_mem x hs, hcs⟩

theorem infix_pyJoin_of_mem (sep : PyStr) :
    ∀ (l : List PyStr) (s : PyStr), s ∈ l → s <:+: pyJoin sep l := by
  intro l
  induction l with
  | nil =>
    intro s hs
    exact absurd hs (List.not_mem_nil s)
  | cons x xs ih =>
    intro s hs
    cases xs with
    | nil =>
      rw [List.mem_singleton.mp hs]
      exact List.infix_refl _
    | cons y ys =>
      show s <:+: x ++ sep ++ pyJoin sep (y :: ys)
      rcases List.mem_cons.mp hs with h1 | h1
      · rw [h1]
        exact prefix_infix_trans _ _ _ (List.prefix_append x _)
          (List.infix_refl (x ++ (sep ++ pyJoin sep (y :: ys)))) |>.trans
          (by rw [List.append_assoc])
      · exact ((ih s h1).trans ⟨x ++ sep, [], by simp⟩)

theorem verseMark_eq : strL "[Verse " = '[' :: 'V' :: strL "erse " := rfl

theorem co_verseMark_moodLine (genre mood : PyStr) :
    countOccur (strL "[Verse ")
      (pyCapitalize mood ++ strL " echoes in a " ++ pyLower genre ++ strL " sway.") = 0 := by
  have hassoc : pyCapitalize mood ++ strL " echoes in a " ++ pyLower genre ++ strL " sway." =
      pyCapitalize mood ++ (strL " echoes in a " ++ pyLower genre ++ strL " sway.") := by
    simp
  rw [hassoc]
  refine countOccur_eq_zero_pairV _ _ (strL "erse ") verseMark_eq ?_
  refine pair_not_infix_append _ _ (fun k hk => pyCapitalize_V_head mood k hk) ?_
  intro hV
  rcases List.mem_append.mp hV with h | h
  · rcases List.mem_append.mp h with h2 | h2
    · exact absurd h2 (by decide)
    · exact pyLower_no_V genre h2
  · exact absurd h (by decide)

theorem co_verseMark_chorusLine1 (mood : PyStr) :
    countOccur (strL "[Verse ") (strL "Hold on to this " ++ pyLower mood ++ strL " glow tonight.") = 0 := by
  refine countOccur_eq_zero_of_mem_absent _ _ 'V' (by decide) ?_
  intro hV
  rcases List.mem_append.mp hV with h | h
  · rcases List.mem_append.mp h with h2 | h2
    · exact absurd h2 (by decide)
    · exact pyLower_no_V mood h2
  · exact absurd h (by decide)

theorem co_verseMark_chorusLine2 (genre : PyStr) :
    countOccur (strL "[Verse ") (strL "Family hearts beating in a " ++ pyLower genre ++ strL " song.") = 0 := by
  refine countOccur_eq_zero_of_mem_absent _ _ 'V' (by decide) ?_
  intro hV
  rcases List.mem_append.mp hV with h | h
  · rcases List.mem_append.mp h with h2 | h2
    · exact absurd h2 (by decide)
    · exact pyLower_no_V genre h2
  · exact absurd h (by decide)

theorem kwPart_no_bracket (keywords : List PyStr)
    (hkw : ∀ k ∈ keywords, ∀ c ∈ k, isKwCont c = true) :
    '[' ∉ pyJoin (strL " and ") (keywords.take 2) := by
  intro hmem
  rcases mem_pyJoin _ _ _ hmem with h | ⟨s, hs, hcs⟩
  · exact absurd h (by decide)
  · have hk := hkw s (List.take_subset 2 keywords hs) '[' hcs
    exact isKwCont_not_bracket '[' hk rfl

theorem co_verseMark_kwLine (keywords : List PyStr)
    (hkw : ∀ k ∈ keywords, ∀ c ∈ k, isKwCont c = true) :
    countOccur (strL "[Verse ")
      (if pyJoin (strL " and ") (keywords.take 2) = []
       then strL "Family memories" ++ strL " dance in the frame."
       else pyJoin (strL " and ") (keywords.take 2) ++ strL " dance in the frame.") = 0 := by
  by_cases hkp : pyJoin (strL " and ") (keywords.take 2) = []
  · rw [if_pos hkp]
    decide
  · rw [if_neg hkp]
    refine countOccur_eq_zero_of_mem_absent _ _ '[' (by decide) ?_
    intro hmem
    rcases List.mem_append.mp hmem with h | h
    · exact kwPart_no_bracket keywords hkw h
    · exact absurd h (by decide)

theorem co_verseMark_marker (i : Nat) :
    countOccur (strL "[Verse ") (strL "[Verse " ++ natChars (i + 1) ++ [']']) = 1 := by
  have h2 : strL "[Verse " = '[' :: strL "Verse " := rfl
  rw [h2]
  have h1 : ('[' :: strL "Verse ") ++ natChars (i + 1) ++ [']'] =
      ('[' :: strL "Verse ") ++ (natChars (i + 1) ++ [']']) := by simp
  rw [h1]
  refine countOccur_self_append '[' _ _ ?_
  intro hmem
  rcases List.mem_append.mp hmem with h | h
  · exact absurd h (by decide)
  · rcases List.mem_append.mp h with h2 | h2
    · have := natChars_range (i + 1) '[' h2
      revert this
      decide
    · exact absurd h2 (by decide)

theorem sum_map_eq_length (g : PyStr → Nat) :
    ∀ l : List PyStr, (∀ x ∈ l, g x = 1) → (l.map g).sum = l.length := by
  intro l
  induction l with
  | nil => intro _; rfl
  | cons x xs ih =>
    intro h
    simp only [List.map_cons, List.sum_cons, h x (List.mem_cons_self x xs),
      ih (fun y hy => h y (List.mem_cons_of_mem x hy)), List.length_cons]
    omega

theorem getD_mem (l : List PyStr) (k : Nat) (d : PyStr) (hk : k < l.length) :
    l.getD k d ∈ l := by
  rw [List.getD_eq_getElem?_getD, List.getElem?_eq_getElem hk]
  exact List.getElem_mem hk

theorem co_verseMark_mkVerse (sentences : List PyStr) (genre mood : PyStr)
    (keywords : List PyStr) (i : Nat)
    (hkw : ∀ k ∈ keywords, ∀ c ∈ k, isKwCont c = true)
    (hline1 : countOccur (strL "[Verse ")
      (dropTrailingDots (sentences.getD (i % sentences.length) [])) = 0) :
    countOccur (strL "[Verse ") (mkVerse sentences genre mood keywords 4 i) = 1 := by
  have hmf : make_fallback_lines
      (verseBaseLines (sentences.getD (i % sentences.length) []) genre mood keywords)
      4 keywords mood =
      verseBaseLines (sentences.getD (i % sentences.length) []) genre mood keywords :=
    make_fallback_lines_of_length _ _ _ _ rfl
  show countOccur _ (strL "[Verse " ++ natChars (i + 1) ++ strL "]\n" ++
    pyJoin (strL "\n") (make_fallback_lines
      (verseBaseLines (sentences.getD (i % sentences.length) []) genre mood keywords)
      4 keywords mood)) = 1
  rw [hmf]
  have hshape : strL "[Verse " ++ natChars (i + 1) ++ strL "]\n" ++
      pyJoin (strL "\n")
        (verseBaseLines (sentences.getD (i % sentences.length) []) genre mood keywords) =
      (strL "[Verse " ++ natChars (i + 1) ++ [']']) ++ '\n' :: pyJoin (strL "\n")
        (verseBaseLines (sentences.getD (i % sentences.length) []) genre mood keywords) := by
    simp [strL]
  rw [hshape, countOccur_append_cons _ '\n' (by decide) (by decide), co_verseMark_marker]
  rw [show strL "\n" = ['\n'] from rfl,
    countOccur_pyJoin_nl _ '\n' (by decide) (by decide)]
  unfold verseBaseLines
  simp only [List.map_cons, List.map_nil, List.sum_cons, List.sum_nil]
  rw [hline1, co_verseMark_moodLine, co_verseMark_kwLine keywords hkw]
  have hl4 : countOccur (strL "[Verse ") (strL "Holding to the quiet light of home.") = 0 := by
    decide
  rw [hl4]
  omega

theorem co_verseMark_chorus (genre mood : PyStr) (keywords : List PyStr) :
    countOccur (strL "[Verse ") (chorusSection genre mood keywords 4) = 0 := by
  have hmf : make_fallback_lines (chorusBase genre mood) (max 4 (min 6 4)) keywords mood =
      chorusBase genre mood := make_fallback_lines_of_length _ _ _ _ rfl
  show countOccur _ (strL "[Chorus]\n" ++ pyJoin (strL "\n")
    (make_fallback_lines (chorusBase genre mood) (max 4 (min 6 4)) keywords mood)) = 0
  rw [hmf]
  have hshape : strL "[Chorus]\n" ++ pyJoin (strL "\n") (chorusBase genre mood) =
      strL "[Chorus]" ++ '\n' :: pyJoin (strL "\n") (chorusBase genre mood) := by
    simp [strL]
  rw [hshape, countOccur_append_cons _ '\n' (by decide) (by decide)]
  rw [show strL "\n" = ['\n'] from rfl,
    countOccur_pyJoin_nl _ '\n' (by decide) (by decide)]
  unfold chorusBase
  simp only [List.map_cons, List.map_nil, List.sum_cons, List.sum_nil]
  rw [co_verseMark_chorusLine1, co_verseMark_chorusLine2]
  have hc0 : countOccur (strL "[Verse ") (strL "[Chorus]") = 0 := by decide
  have hl3 : countOccur (strL "[Verse ") (strL "Every laugh and tear we treasure tight.") = 0 := by
    decide
  have hl4 : countOccur (strL "[Verse ") (strL "Love keeps the rhythm, steady and strong.") = 0 := by
    decide
  rw [hc0, hl3, hl4]
  omega

theorem allowedAll_append (a b : PyStr) (ha : ∀ c ∈ a, allowedAscii c = true)
    (hb : ∀ c ∈ b, allowedAscii c = true) : ∀ c ∈ a ++ b, allowedAscii c = true := by
  intro c hc
  rcases List.mem_append.mp hc with h | h
  · exact ha c h
  · exact hb c h

theorem pyLower_allowed (l : PyStr) (h : ∀ c ∈ l, allowedAscii c = true) :
    ∀ c ∈ pyLower l, allowedAscii c = true := by
  intro c hc
  obtain ⟨x, hx, hxc⟩ := List.mem_map.mp hc
  rw [← hxc]
  exact pyLowerC_allowed x (h x hx)

theorem pyCapitalize_allowed (l : PyStr) (h : ∀ c ∈ l, allowedAscii c = true) :
    ∀ c ∈ pyCapitalize l, allowedAscii c = true := by
  cases l with
  | nil =>
    intro c hc
    exact absurd hc (List.not_mem_nil c)
  | cons x xs =>
    intro c hc
    rcases List.mem_cons.mp hc with h1 | h1
    · rw [h1]
      exact pyUpperC_allowed x (h x (List.mem_cons_self x xs))
    · obtain ⟨y, hy, hyc⟩ := List.mem_map.mp h1
      rw [← hyc]
      exact pyLowerC_allowed y (h y (List.mem_cons_of_mem x hy))

theorem natChars_allowed (n : Nat) : ∀ c ∈ natChars n, allowedAscii c = true := by
  intro c hc
  have h := natChars_range n c hc
  simp only [allowedAscii, Bool.or_eq_true, Bool.and_eq_true, decide_eq_true_eq]
  omega

theorem padLine_allowed (k mood : PyStr) (hk : ∀ c ∈ k, allowedAscii c = true)
    (hm : ∀ c ∈ mood, allowedAscii c = true) :
    ∀ c ∈ padLine k mood, allowedAscii c = true := by
  show ∀ c ∈ pyCapitalize k ++ strL " in " ++ pyLower mood ++ strL " light we keep.",
      allowedAscii c = true
  exact allowedAll_append _ _
    (allowedAll_append _ _
      (allowedAll_append _ _ (pyCapitalize_allowed k hk) (by decide))
      (pyLower_allowed mood hm))
    (by decide)

theorem mem_padLines (kws : List PyStr) (mood : PyStr) :
    ∀ (n i : Nat) (l : PyStr), l ∈ padLines kws mood i n →
      ∃ k, (k ∈ kws ∨ k = []) ∧ l = padLine k mood := by
  intro n
  induction n with
  | zero =>
    intro i l hl
    exact absurd hl (List.not_mem_nil l)
  | succ n ih =>
    intro i l hl
    rw [show padLines kws mood i (n + 1) =
        padLine (kws.getD (i % kws.length) []) mood :: padLines kws mood (i + 1) n from rfl] at hl
    rcases List.mem_cons.mp hl with h | h
    · refine ⟨kws.getD (i % kws.length) [], ?_, h⟩
      by_cases hke : kws = []
      · rw [hke]
        simp
      · exact Or.inl (getD_mem kws _ [] (Nat.mod_lt _ (List.length_pos.mpr hke)))
    · exact ih (i + 1) l h

theorem mem_make_fallback_lines (base : List PyStr) (t : Nat) (kws : List PyStr) (mood : PyStr) :
    ∀ l ∈ make_fallback_lines base t kws mood,
      l ∈ base ∨ ∃ k, (k ∈ kws ∨ k ∈ defaultKeywords ∨ k = []) ∧ l = padLine k mood := by
  intro l hl
  simp only [make_fallback_lines] at hl
  have h1 := List.take_subset t _ hl
  rcases List.mem_append.mp h1 with h | h
  · exact Or.inl (List.take_subset t base h)
  · obtain ⟨k, hk, hlk⟩ := mem_padLines _ mood _ 0 l h
    refine Or.inr ⟨k, ?_, hlk⟩
    rcases hk with h2 | h2
    · by_cases hke : kws = []
      · rw [if_pos hke] at h2
        exact Or.inr (Or.inl h2)
      · rw [if_neg hke] at h2
        exact Or.inl h2
    · exact Or.inr (Or.inr h2)

theorem mfl_allowed (base : List PyStr) (t : Nat) (kws : List PyStr) (mood : PyStr)
    (hb : ∀ l ∈ base, ∀ c ∈ l, allowedAscii c = true)
    (hkw : ∀ k ∈ kws, ∀ c ∈ k, isKwCont c = true)
    (hm : ∀ c ∈ mood, allowedAscii c = true) :
    ∀ l ∈ make_fallback_lines base t kws mood, ∀ c ∈ l, allowedAscii c = true := by
  intro l hl
  rcases mem_make_fallback_lines base t kws mood l hl with h | ⟨k, hk, hlk⟩
  · exact hb l h
  · rw [hlk]
    refine padLine_allowed k mood ?_ hm
    rcases hk with h2 | h2 | h2
    · intro c hc
      exact isKwCont_allowed c (hkw k h2 c hc)
    · intro c hc
      exact (by decide : ∀ x ∈ defaultKeywords, ∀ c ∈ x, allowedAscii c = true) k h2 c hc
    · rw [h2]
      intro c hc
      exact absurd hc (List.not_mem_nil c)

theorem verseBaseLines_allowed (sentence genre mood : PyStr) (keywords : List PyStr)
    (hs : ∀ c ∈ sentence, allowedAscii c = true)
    (hg : ∀ c ∈ genre, allowedAscii c = true)
    (hm : ∀ c ∈ mood, allowedAscii c = true)
    (hkw : ∀ k ∈ keywords, ∀ c ∈ k, isKwCont c = true) :
    ∀ l ∈ verseBaseLines sentence genre mood keywords, ∀ c ∈ l, allowedAscii c = true := by
  intro l hl
  simp only [verseBaseLines] at hl
  rcases List.mem_cons.mp hl with h | hl
  · rw [h]
    intro c hc
    exact hs c ((dropTrailingDots_within sentence).sublist.subset hc)
  rcases List.mem_cons.mp hl with h | hl
  · rw [h]
    exact allowedAll_append _ _
      (allowedAll_append _ _
        (allowedAll_append _ _ (pyCapitalize_allowed mood hm) (by decide))
        (pyLower_allowed genre hg))
      (by decide)
  rcases List.mem_cons.mp hl with h | hl
  · rw [h]
    by_cases hkp : pyJoin (strL " and ") (keywords.take 2) = []
    · rw [if_pos hkp]
      decide
    · rw [if_neg hkp]
      refine allowedAll_append _ _ ?_ (by decide)
      intro c hc
      rcases mem_pyJoin _ _ c hc with h2 | ⟨s, hs2, hcs⟩
      · exact (by decide : ∀ x ∈ strL " and ", allowedAscii x = true) c h2
      · exact isKwCont_allowed c (hkw s (List.take_subset 2 keywords hs2) c hcs)
  rcases List.mem_cons.mp hl with h | hl
  · rw [h]
    decide
  · exact absurd hl (List.not_mem_nil l)

theorem chorusBase_allowed (genre mood : PyStr)
    (hg : ∀ c ∈ genre, allowedAscii c = true)
    (hm : ∀ c ∈ mood, allowedAscii c = true) :
    ∀ l ∈ chorusBase genre mood, ∀ c ∈ l, allowedAscii c = true := by
  intro l hl
  simp only [chorusBase] at hl
  rcases List.mem_cons.mp hl with h | hl
  · rw [h]
    exact allowedAll_append _ _
      (allowedAll_append _ _ (by decide) (pyLower_allowed mood hm)) (by decide)
  rcases List.mem_cons.mp hl with h | hl
  · rw [h]
    exact allowedAll_append _ _
      (allowedAll_append _ _ (by decide) (pyLower_allowed genre hg)) (by decide)
  rcases List.mem_cons.mp hl with h | hl
  · rw [h]
    decide
  rcases List.mem_cons.mp hl with h | hl
  · rw [h]
    decide
  · exact absurd hl (List.not_mem_nil l)

theorem mkVerse_allowed (sentences : List PyStr) (genre mood : PyStr) (keywords : List PyStr)
    (lpv i : Nat)
    (hsents : ∀ s ∈ sentences, ∀ c ∈ s, allowedAscii c = true)
    (hg : ∀ c ∈ genre, allowedAscii c = true)
    (hm : ∀ c ∈ mood, allowedAscii c = true)
    (hkw : ∀ k ∈ keywords, ∀ c ∈ k, isKwCont c = true) :
    ∀ c ∈ mkVerse sentences genre mood keywords lpv i, allowedAscii c = true := by
  show ∀ c ∈ strL "[Verse " ++ natChars (i + 1) ++ strL "]\n" ++
      pyJoin (strL "\n")
        (make_fallback_lines
          (verseBaseLines (sentences.getD (i % sentences.length) []) genre mood keywords)
          lpv keywords mood),
    allowedAscii c = true
  have hsent : ∀ c ∈ sentences.getD (i % sentences.length) [], allowedAscii c = true := by
    by_cases hse : sentences = []
    · rw [hse]
      intro c hc
      simp at hc
    · exact hsents _ (getD_mem sentences _ [] (Nat.mod_lt _ (List.length_pos.mpr hse)))
  refine allowedAll_append _ _
    (allowedAll_append _ _
      (allowedAll_append _ _ (by decide) (natChars_allowed (i + 1))) (by decide)) ?_
  intro c hc
  rcases mem_pyJoin _ _ c hc with h | ⟨s, hs, hcs⟩
  · exact (by decide : ∀ x ∈ strL "\n", allowedAscii x = true) c h
  · exact mfl_allowed _ lpv keywords mood
      (verseBaseLines_allowed _ genre mood keywords hsent hg hm hkw) hkw hm s hs c hcs

theorem chorusSection_allowed (genre mood : PyStr) (keywords : List PyStr) (lpv : Nat)
    (hg : ∀ c ∈ genre, allowedAscii c = true)
    (hm : ∀ c ∈ mood, allowedAscii c = true)
    (hkw : ∀ k ∈ keywords, ∀ c ∈ k, isKwCont c = true) :
    ∀ c ∈ chorusSection genre mood keywords lpv, allowedAscii c = true := by
  show ∀ c ∈ strL "[Chorus]\n" ++ pyJoin (strL "\n")
      (make_fallback_lines (chorusBase genre mood) (max 4 (min 6 lpv)) keywords mood),
    allowedAscii c = true
  refine allowedAll_append _ _ (by decide) ?_
  intro c hc
  rcases mem_pyJoin _ _ c hc with h | ⟨s, hs, hcs⟩
  · exact (by decide : ∀ x ∈ strL "\n", allowedAscii x = true) c h
  · exact mfl_allowed _ _ keywords mood (chorusBase_allowed genre mood hg hm) hkw hm s hs c hcs

theorem mem_lyricsSections_elim (verses : List PyStr) (chorus s : PyStr)
    (hs : s ∈ lyricsSections verses chorus) : s ∈ verses ∨ s = chorus := by
  cases verses with
  | nil => exact Or.inr (List.mem_singleton.mp hs)
  | cons v vs =>
    rcases List.mem_cons.mp hs with h | h
    · exact Or.inl (h ▸ List.mem_cons_self v vs)
    · rcases List.mem_cons.mp h with h2 | h2
      · exact Or.inr h2
      · rcases List.mem_append.mp h2 with h3 | h3
        · exact Or.inl (List.mem_cons_of_mem v h3)
        · exact Or.inr (List.mem_singleton.mp h3)

theorem chorus_mem_lyricsSections (verses : List PyStr) (chorus : PyStr) :
    chorus ∈ lyricsSections verses chorus := by
  cases verses with
  | nil => exact List.mem_singleton_self chorus
  | cons v vs => exact List.mem_cons_of_mem v (List.mem_cons_self chorus _)

theorem verse_mem_lyricsSections (verses : List PyStr) (chorus s : PyStr) (hs : s ∈ verses) :
    s ∈ lyricsSections verses chorus := by
  cases verses with
  | nil => exact absurd hs (List.not_mem_nil s)
  | cons v vs =>
    rcases List.mem_cons.mp hs with h | h
    · rw [h]
      exact List.mem_cons_self _ _
    · exact List.mem_cons_of_mem v
        (List.mem_cons_of_mem chorus (List.mem_append_left [chorus] h))

theorem marker_prefix_mkVerse (S : List PyStr) (genre mood : PyStr) (K : List PyStr)
    (lpv i : Nat) :
    (strL "[Verse " ++ natChars (i + 1) ++ [']']) <+: mkVerse S genre mood K lpv i := by
  refine ⟨'\n' :: pyJoin (strL "\n")
    (make_fallback_lines (verseBaseLines (S.getD (i % S.length) []) genre mood K) lpv K mood), ?_⟩
  show (strL "[Verse " ++ natChars (i + 1) ++ [']']) ++ _ =
    strL "[Verse " ++ natChars (i + 1) ++ strL "]\n" ++ pyJoin (strL "\n")
      (make_fallback_lines (verseBaseLines (S.getD (i % S.length) []) genre mood K) lpv K mood)
  simp [strL]

theorem wcGo_cons_nl (l : PyStr) : wcGo ('\n' :: l) false = wcGo l false := by
  show (if pyWs '\n' then wcGo l false else (if false then 0 else 1) + wcGo l true) = wcGo l false
  rw [if_pos (by decide)]

theorem wc_pyJoin2_ge (a b : PyStr) (tl : List PyStr) :
    wordCount b ≤ wordCount (pyJoin ['\n', '\n'] (a :: b :: tl)) := by
  have he : pyJoin ['\n', '\n'] (a :: b :: tl) =
      a ++ '\n' :: ('\n' :: pyJoin ['\n', '\n'] (b :: tl)) := by
    show a ++ ['\n', '\n'] ++ pyJoin ['\n', '\n'] (b :: tl) = _
    simp
  rw [he]
  show wcGo b false ≤ wcGo (a ++ '\n' :: ('\n' :: pyJoin ['\n', '\n'] (b :: tl))) false
  rw [wcGo_append_ws '\n' (by decide) a _ false, wcGo_cons_nl]
  cases tl with
  | nil =>
    show wcGo b false ≤ wcGo a false + wcGo b false
    omega
  | cons t ts =>
    have he2 : pyJoin ['\n', '\n'] (b :: t :: ts) =
        b ++ '\n' :: ('\n' :: pyJoin ['\n', '\n'] (t :: ts)) := by
      show b ++ ['\n', '\n'] ++ pyJoin ['\n', '\n'] (t :: ts) = _
      simp
    rw [he2, wcGo_append_ws '\n' (by decide) b _ false]
    omega

theorem wc_chorusSection (genre mood : PyStr) (keywords : List PyStr) :
    20 ≤ wordCount (chorusSection genre mood keywords 4) := by
  have hmf : make_fallback_lines (chorusBase genre mood) (max 4 (min 6 4)) keywords mood =
      chorusBase genre mood := make_fallback_lines_of_length _ _ _ _ rfl
  show 20 ≤ wordCount (strL "[Chorus]\n" ++ pyJoin (strL "\n")
    (make_fallback_lines (chorusBase genre mood) (max 4 (min 6 4)) keywords mood))
  rw [hmf]
  have he : strL "[Chorus]\n" ++ pyJoin (strL "\n") (chorusBase genre mood) =
      strL "[Chorus]" ++ '\n' ::
        ((strL "Hold on to this" ++ ' ' :: (pyLower mood ++ ' ' :: strL "glow tonight.")) ++ '\n' ::
          ((strL "Family hearts beating in a" ++ ' ' :: (pyLower genre ++ ' ' :: strL "song.")) ++ '\n' ::
            (strL "Every laugh and tear we treasure tight." ++ '\n' ::
              strL "Love keeps the rhythm, steady and strong."))) := by
    show strL "[Chorus]\n" ++
        ((strL "Hold on to this " ++ pyLower mood ++ strL " glow tonight.") ++ strL "\n" ++
          ((strL "Family hearts beating in a " ++ pyLower genre ++ strL " song.") ++ strL "\n" ++
            (strL "Every laugh and tear we treasure tight." ++ strL "\n" ++
              strL "Love keeps the rhythm, steady and strong."))) = _
    simp [strL]
  rw [he]
  show 20 ≤ wcGo _ false
  simp only [wcGo_append_ws '\n' (by decide), wcGo_append_ws ' ' (by decide)]
  have c1 : wcGo (strL "[Chorus]") false = 1 := by decide
  have c2 : wcGo (strL "Hold on to this") false = 4 := by decide
  have c3 : wcGo (strL "glow tonight.") false = 2 := by decide
  have c4 : wcGo (strL "Family hearts beating in a") false = 5 := by decide
  have c5 : wcGo (strL "song.") false = 1 := by decide
  have c6 : wcGo (strL "Every laugh and tear we treasure tight.") false = 7 := by decide
  have c7 : wcGo (strL "Love keeps the rhythm, steady and strong.") false = 7 := by decide
  rw [c1, c2, c3, c4, c5, c6, c7]
  omega

theorem fallback_core (S : List PyStr) (genre mood : PyStr) (K : List PyStr) (m : Nat)
    (hkw : ∀ k ∈ K, ∀ c ∈ k, isKwCont c = true)
    (hsent : ∀ i : Nat,
      countOccur (strL "[Verse ") (dropTrailingDots (S.getD (i % S.length) [])) = 0)
    (hsall : ∀ s ∈ S, ∀ c ∈ s, allowedAscii c = true)
    (hg : ∀ c ∈ genre, allowedAscii c = true)
    (hm : ∀ c ∈ mood, allowedAscii c = true) :
    countOccur (strL "[Verse ")
        (pyJoin (strL "\n\n") (lyricsSections
          ((List.range (m + 1)).map (mkVerse S genre mood K 4))
          (chorusSection genre mood K 4))) = m + 1 ∧
    (∀ i, i < m + 1 → (strL "[Verse " ++ natChars (i + 1) ++ [']']) <:+:
        pyJoin (strL "\n\n") (lyricsSections
          ((List.range (m + 1)).map (mkVerse S genre mood K 4))
          (chorusSection genre mood K 4))) ∧
    strL "[Chorus]" <:+:
        pyJoin (strL "\n\n") (lyricsSections
          ((List.range (m + 1)).map (mkVerse S genre mood K 4))
          (chorusSection genre mood K 4)) ∧
    looks_like_valid_lyrics
        (pyJoin (strL "\n\n") (lyricsSections
          ((List.range (m + 1)).map (mkVerse S genre mood K 4))
          (chorusSection genre mood K 4))) = true := by
  have hinfV : ∀ i, i < m + 1 → (strL "[Verse " ++ natChars (i + 1) ++ [']']) <:+:
      pyJoin (strL "\n\n") (lyricsSections
        ((List.range (m + 1)).map (mkVerse S genre mood K 4))
        (chorusSection genre mood K 4)) := by
    intro i hi
    exact prefix_infix_trans _ _ _ (marker_prefix_mkVerse S genre mood K 4 i)
      (infix_pyJoin_of_mem _ _ _ (verse_mem_lyricsSections _ _ _
        (List.mem_map.mpr ⟨i, List.mem_range.mpr hi, rfl⟩)))
  have hinfC : strL "[Chorus]" <:+:
      pyJoin (strL "\n\n") (lyricsSections
        ((List.range (m + 1)).map (mkVerse S genre mood K 4))
        (chorusSection genre mood K 4)) := by
    refine prefix_infix_trans _ (chorusSection genre mood K 4) _ ?_
      (infix_pyJoin_of_mem _ _ _ (chorus_mem_lyricsSections _ _))
    refine ⟨'\n' :: pyJoin (strL "\n")
      (make_fallback_lines (chorusBase genre mood) (max 4 (min 6 4)) K mood), ?_⟩
    show strL "[Chorus]" ++ _ = strL "[Chorus]\n" ++ pyJoin (strL "\n")
      (make_fallback_lines (chorusBase genre mood) (max 4 (min 6 4)) K mood)
    simp [strL]
  have hcount : countOccur (strL "[Verse ")
      (pyJoin (strL "\n\n") (lyricsSections
        ((List.range (m + 1)).map (mkVerse S genre mood K 4))
        (chorusSection genre mood K 4))) = m + 1 := by
    rw [show strL "\n\n" = ['\n', '\n'] from rfl]
    rw [countOccur_pyJoin_sep (strL "[Verse ") '\n' '\n' (by decide) (by decide) (by decide)]
    rw [List.range_succ_eq_map, List.map_cons]
    rw [show lyricsSections
        (mkVerse S genre mood K 4 0 ::
          ((List.range m).map Nat.succ).map (mkVerse S genre mood K 4))
        (chorusSection genre mood K 4) =
      mkVerse S genre mood K 4 0 :: chorusSection genre mood K 4 ::
        (((List.range m).map Nat.succ).map (mkVerse S genre mood K 4) ++
          [chorusSection genre mood K 4]) from rfl]
    simp only [List.map_cons, List.map_append, List.sum_cons, List.sum_append,
      List.map_nil, List.sum_nil]
    rw [co_verseMark_mkVerse S genre mood K 0 hkw (hsent 0), co_verseMark_chorus genre mood K]
    have hv : ((((List.range m).map Nat.succ).map (mkVerse S genre mood K 4)).map
        (countOccur (strL "[Verse "))).sum =
        (((List.range m).map Nat.succ).map (mkVerse S genre mood K 4)).length := by
      refine sum_map_eq_length _ _ ?_
      intro x hx
      obtain ⟨j, hj, hjx⟩ := List.mem_map.mp hx
      rw [← hjx]
      exact co_verseMark_mkVerse S genre mood K j hkw (hsent j)
    rw [hv, List.length_map, List.length_map, List.length_range]
    omega
  have hall : ∀ c ∈ pyJoin (strL "\n\n") (lyricsSections
      ((List.range (m + 1)).map (mkVerse S genre mood K 4))
      (chorusSection genre mood K 4)), allowedAscii c = true := by
    intro c hc
    rcases mem_pyJoin _ _ c hc with h | ⟨s, hs, hcs⟩
    · exact (by decide : ∀ x ∈ strL "\n\n", allowedAscii x = true) c h
    · rcases mem_lyricsSections_elim _ _ s hs with h2 | h2
      · obtain ⟨j, hj, hjs⟩ := List.mem_map.mp h2
        rw [← hjs] at hcs
        exact mkVerse_allowed S genre mood K 4 j hsall hg hm hkw c hcs
      · rw [h2] at hcs
        exact chorusSection_allowed genre mood K 4 hg hm hkw c hcs
  have hwc : 20 ≤ wordCount (pyJoin (strL "\n\n") (lyricsSections
      ((List.range (m + 1)).map (mkVerse S genre mood K 4))
      (chorusSection genre mood K 4))) := by
    rw [show strL "\n\n" = ['\n', '\n'] from rfl]
    rw [List.range_succ_eq_map, List.map_cons]
    rw [show lyricsSections
        (mkVerse S genre mood K 4 0 ::
          ((List.range m).map Nat.succ).map (mkVerse S genre mood K 4))
        (chorusSection genre mood K 4) =
      mkVerse S genre mood K 4 0 :: chorusSection genre mood K 4 ::
        (((List.range m).map Nat.succ).map (mkVerse S genre mood K 4) ++
          [chorusSection genre mood K 4]) from rfl]
    exact le_trans (wc_chorusSection genre mood K) (wc_pyJoin2_ge _ _ _)
  have hne : pyJoin (strL "\n\n") (lyricsSections
      ((List.range (m + 1)).map (mkVerse S genre mood K 4))
      (chorusSection genre mood K 4)) ≠ [] := by
    intro h0
    exact absurd (List.infix_nil.mp (h0 ▸ hinfC)) (by decide)
  have hgate : looks_like_valid_lyrics (pyJoin (strL "\n\n") (lyricsSections
      ((List.range (m + 1)).map (mkVerse S genre mood K 4))
      (chorusSection genre mood K 4))) = true := by
    have h2 : hasSub (strL "[Verse") (pyJoin (strL "\n\n") (lyricsSections
        ((List.range (m + 1)).map (mkVerse S genre mood K 4))
        (chorusSection genre mood K 4))) = true :=
      (hasSub_iff_sub _ _).mpr (prefix_infix_trans _ _ _
        ⟨' ' :: (natChars (0 + 1) ++ [']']), by simp [strL]⟩ (hinfV 0 (by omega)))
    have h3 : hasSub (strL "[Chorus]") (pyJoin (strL "\n\n") (lyricsSections
        ((List.range (m + 1)).map (mkVerse S genre mood K 4))
        (chorusSection genre mood K 4))) = true :=
      (hasSub_iff_sub _ _).mpr hinfC
    have h4 : (pyJoin (strL "\n\n") (lyricsSections
        ((List.range (m + 1)).map (mkVerse S genre mood K 4))
        (chorusSection genre mood K 4))).any (fun c => !(allowedAscii c)) = false := by
      rw [List.any_eq_false]
      intro x hx
      simp [hall x hx]
    unfold looks_like_valid_lyrics
    rw [if_neg hne, if_neg (by simp [h2, h3]), if_neg (by simp [h4]), if_neg (by omega)]
  exact ⟨hcount, hinfV, hinfC, hgate⟩

/-- C6 (corrected): for the default `lines_per_verse = 4` and any requested
verse count `n ≥ 1`, if the summary, genre and mood contain only characters
the Quality Gate allows and the summary does not itself contain the literal
marker `[Verse `, then `_fallback_lyrics` emits exactly one `[Verse i]`
marker per requested verse (`n` occurrences of `[Verse ` in total), each
numbered marker `[Verse 1] … [Verse n]` appears, at least one `[Chorus]`
marker appears, and the output passes `_looks_like_valid_lyrics`.  The
unconditional form of the claim is refuted by
`fallback_lyrics_structure_cex`. -/
theorem fallback_lyrics_structure (summary genre mood : PyStr) (n : Nat)
    (hn : 1 ≤ n)
    (hsum : ∀ c ∈ summary, allowedAscii c = true)
    (hgen : ∀ c ∈ genre, allowedAscii c = true)
    (hmood : ∀ c ∈ mood, allowedAscii c = true)
    (hmark : ¬ strL "[Verse " <:+: summary) :
    countOccur (strL "[Verse ") (fallback_lyrics summary genre mood 4 n) = n ∧
    (∀ i, i < n → (strL "[Verse " ++ natChars (i + 1) ++ [']']) <:+:
      fallback_lyrics summary genre mood 4 n) ∧
    strL "[Chorus]" <:+: fallback_lyrics summary genre mood 4 n ∧
    looks_like_valid_lyrics (fallback_lyrics summary genre mood 4 n) = true := by
  obtain ⟨m, rfl⟩ : ∃ m, n = m + 1 := ⟨n - 1, by omega⟩
  have hL : fallback_lyrics summary genre mood 4 (m + 1) =
      pyJoin (strL "\n\n") (lyricsSections
        ((List.range (m + 1)).map (mkVerse
          (if sentencesOf summary = []
           then [strL "We gather together, sharing the stories that make this family ours."]
           else sentencesOf summary) genre mood (extract_keywords summary) 4))
        (chorusSection genre mood (extract_keywords summary) 4)) := rfl
  rw [hL]
  refine fallback_core _ genre mood (extract_keywords summary) m
    (fun k hk => extract_keywords_chars summary k hk) ?_ ?_ hgen hmood
  · intro i
    by_cases hse : sentencesOf summary = []
    · rw [if_pos hse, List.length_singleton, Nat.mod_one]
      decide
    · rw [if_neg hse]
      refine countOccur_eq_zero_of_not_infix _ _ ?_
      intro hinf
      have hsmem : (sentencesOf summary).getD (i % (sentencesOf summary).length) [] ∈
          sentencesOf summary :=
        getD_mem _ _ [] (Nat.mod_lt _ (List.length_pos.mpr hse))
      exact hmark
        ((hinf.trans (dropTrailingDots_within _)).trans (sentencesOf_mem_within summary _ hsmem))
  · by_cases hse : sentencesOf summary = []
    · rw [if_pos hse]
      intro s hs
      rw [List.mem_singleton.mp hs]
      decide
    · rw [if_neg hse]
      intro s hs c hc
      exact hsum c ((sentencesOf_mem_within summary s hs).sublist.subset hc)

/-- Witness for C6 at a concrete input: summary `"Sunny day at the park."`,
genre `"pop"`, mood `"calm"`, two verses. -/
theorem fallback_lyrics_structure_witness :
    countOccur (strL "[Verse ")
        (fallback_lyrics (strL "Sunny day at the park.") (strL "pop") (strL "calm") 4 2) = 2 ∧
    (∀ i, i < 2 → (strL "[Verse " ++ natChars (i + 1) ++ [']']) <:+:
      fallback_lyrics (strL "Sunny day at the park.") (strL "pop") (strL "calm") 4 2) ∧
    strL "[Chorus]" <:+:
      fallback_lyrics (strL "Sunny day at the park.") (strL "pop") (strL "calm") 4 2 ∧
    looks_like_valid_lyrics
        (fallback_lyrics (strL "Sunny day at the park.") (strL "pop") (strL "calm") 4 2) = true :=
  fallback_lyrics_structure (strL "Sunny day at the park.") (strL "pop") (strL "calm") 2
    (by decide) (by decide) (by decide) (by decide)
    (fun h => absurd (h.sublist.subset (by decide : '[' ∈ strL "[Verse ")) (by decide))

/-- C6 counterexample to the unconditional claim: a non-ASCII mood makes the
fallback lyrics fail the Quality Gate; a requested verse count of `0`
produces no verse marker, so the gate rejects the output; and a summary
already containing `[Verse ` yields two marker occurrences for one
requested verse. -/
theorem fallback_lyrics_structure_cex :
    looks_like_valid_lyrics
        (fallback_lyrics (strL "Sunny day.") (strL "pop") (strL "é") 4 1) = false ∧
    looks_like_valid_lyrics
        (fallback_lyrics (strL "Sunny day.") (strL "pop") (strL "calm") 4 0) = false ∧
    countOccur (strL "[Verse ")
        (fallback_lyrics (strL "[Verse 1] we sing. More here!") (strL "pop") (strL "calm") 4 1)
      = 2 := by
  refine ⟨by decide, by decide, by decide⟩
